import Mathlib

/-!
Verification of the `vega-datasets` generation scripts, chiefly the flights
ETL pipeline (`scripts/flights.py`, `scripts/flights2.py`) and the gallery
technique detector (`scripts/generate_gallery_examples.py`).

The Python code is shallowly embedded: dataframes become lists of rows,
polars expression pipelines become row-wise functions, raised exceptions
become `Except String` errors, and `datetime.date` becomes an explicit
proleptic-Gregorian `Date` structure.  `Float64` columns of the flights
source data hold integral values (delays, distances, a 0/1 cancelled flag)
and are modelled as nullable integers (`Option Int`); the claims under
verification do not depend on floating-point rounding.
-/

deriving instance DecidableEq for Except

/-! ### Calendar model (`datetime.date` and month arithmetic) -/

/-- Proleptic Gregorian calendar date, modelling `datetime.date`. -/
structure Date where
  year : Int
  month : Nat
  day : Nat
deriving DecidableEq

/-- Gregorian leap-year rule. -/
def isLeapYear (y : Int) : Bool :=
  y % 4 == 0 && (y % 100 != 0 || y % 400 == 0)

/-- Number of days in a month (month is 1-based). -/
def daysInMonth (y : Int) (m : Nat) : Nat :=
  if m = 2 then (if isLeapYear y then 29 else 28)
  else if m = 4 ∨ m = 6 ∨ m = 9 ∨ m = 11 then 30
  else 31

/-- Strict lexicographic order on dates (`datetime.date.__lt__`). -/
def Date.ltb (a b : Date) : Bool :=
  if a.year = b.year then
    (if a.month = b.month then decide (a.day < b.day) else decide (a.month < b.month))
  else decide (a.year < b.year)

/-- Non-strict order on dates (`datetime.date.__le__`). -/
def Date.leb (a b : Date) : Bool :=
  decide (a = b) || Date.ltb a b

/-- Whether the fields form a real calendar date (what `datetime.date(...)` accepts). -/
def Date.wellFormed (d : Date) : Bool :=
  1 ≤ d.month && d.month ≤ 12 && 1 ≤ d.day && d.day ≤ daysInMonth d.year d.month

/-- The day after `d` (`+ timedelta(days=1)`). -/
def Date.nextDay (d : Date) : Date :=
  if d.day < daysInMonth d.year d.month then ⟨d.year, d.month, d.day + 1⟩
  else if d.month < 12 then ⟨d.year, d.month + 1, 1⟩
  else ⟨d.year + 1, 1, 1⟩

/-- The day before `d` (`- timedelta(days=1)`). -/
def Date.predDay (d : Date) : Date :=
  if 1 < d.day then ⟨d.year, d.month, d.day - 1⟩
  else if 1 < d.month then ⟨d.year, d.month - 1, daysInMonth d.year (d.month - 1)⟩
  else ⟨d.year - 1, 12, 31⟩

/-- `d - timedelta(days=n)`. -/
def Date.subDays (d : Date) (n : Nat) : Date :=
  Date.predDay^[n] d

/-- Zero-based month counter used for month arithmetic. -/
def Date.monthIndex (d : Date) : Int :=
  d.year * 12 + (d.month : Int) - 1

/-- `d` shifted forward by `n` months, with the day saturated to the month
length, matching polars' `1mo` interval offsets. -/
def Date.addMonths (d : Date) (n : Nat) : Date :=
  let idx : Int := d.monthIndex + n
  let y := idx.ediv 12
  let m : Nat := (idx.emod 12).toNat + 1
  ⟨y, m, min d.day (daysInMonth y m)⟩

/-- `pl.date_range(start, stop, interval="1mo")`: every `start + i` months
that does not pass `stop`, in ascending order. -/
def dateRangeMonthly (start stop : Date) : List Date :=
  let n : Nat := (stop.monthIndex - start.monthIndex + 1).toNat
  ((List.range n).map start.addMonths).filter (fun d => d.leb stop)

/-! ### `DateRange` (flights.py lines 308-385) -/

/-- `REPORTING_PREFIX` in the source: the common stem of the monthly
BTS on-time-performance archives. -/
def REPORTING_STEM : String :=
  "On_Time_Reporting_Carrier_On_Time_Performance_1987_present_"

/-- `_file_stem_source(year, month)`: stem of one monthly source file. -/
def fileStemSource (y : Int) (m : Nat) : String :=
  REPORTING_STEM ++ toString y ++ "_" ++ toString m

/-- `DateRange`: a validated time period.  The source stores the bounds as
polars literal expressions; the dates themselves are the state. -/
structure DateRange where
  start : Date
  /-- The `end` bound (Lean reserves the word `end`). -/
  end' : Date
deriving DecidableEq

/-- `DateRange.monthly`: the monthly date range between the bounds. -/
def DateRange.monthly (r : DateRange) : List Date :=
  dateRangeMonthly r.start r.end'

/-- `DateRange.file_stems`: stems of all source files the period requires.
The source sorts the stems by their date; `dateRangeMonthly` is already
ascending, so the stable sort is the identity here. -/
def DateRange.file_stems (r : DateRange) : List String :=
  r.monthly.map (fun d => fileStemSource d.year d.month)

/-- `DateRange.paths`: one parquet path per required stem. -/
def DateRange.paths (r : DateRange) (input_dir : String) : List String :=
  r.file_stems.map (fun stem => input_dir ++ "/" ++ stem ++ ".parquet")

/-- `DateRange.__eq__`: two ranges are equivalent when they require the same
files.  (The `isinstance` guard always holds in this typed embedding.) -/
def DateRange.eq (a b : DateRange) : Bool :=
  decide (a.file_stems = b.file_stems)

/-- A deterministic stand-in for CPython's string hash. -/
def strHash (s : String) : Nat :=
  s.data.foldl (fun h c => h * 31 + c.toNat) 5381

/-- `DateRange.__hash__`: `hash(self.file_stems)`, a function of the stem
tuple only. -/
def DateRange.hashVal (r : DateRange) : Nat :=
  r.file_stems.foldl (fun h s => h * 31 + strHash s) 7

/-- `_approx_latest(months_ago=...)`: last day of roughly `months_ago`
months before `today`.  `today` (`dt.date.today()`) is an ambient input of
the program and is passed explicitly. -/
def approxLatest (today : Date) (monthsAgo : Nat) : Date :=
  let currentMonthStart : Date := { today with day := 1 }
  let shifted := currentMonthStart.subDays (monthsAgo * 4 * 7)
  ({ shifted with day := 1 }).predDay

/-- `DateRange._EARLIEST`. -/
def EARLIEST : Date := ⟨1987, 10, 1⟩

/-- The inputs `_into_date` accepts: a date, a datetime, or a 3/2/1-element
integer sequence. -/
inductive IntoDate where
  | date (d : Date)
  | datetime (d : Date) (hour minute : Nat)
  | ymd (y : Int) (m d : Nat)
  | ym (y : Int) (m : Nat)
  | yOnly (y : Int)
deriving DecidableEq

/-- `_into_date`: normalize date input. -/
def intoDate : IntoDate → Date
  | .date d => d
  | .datetime d _ _ => d
  | .ymd y m d => ⟨y, m, d⟩
  | .ym y m => ⟨y, m, 1⟩
  | .yOnly y => ⟨y, 1, 1⟩

/-- Whether an `IntoDate` denotes a real calendar date (otherwise CPython's
`datetime.date` constructor rejects it before `DateRange` validation runs). -/
def IntoDate.wellFormed (x : IntoDate) : Bool :=
  (intoDate x).wellFormed

/-- `DateRange.__init__`: validates the normalized bounds, raising
`TypeError` for a non-positive range or one outside the available data.
`latest` models the dynamically computed `_LATEST` class attribute. -/
def DateRange.init (latest : Date) (s e : IntoDate) : Except String DateRange :=
  if Date.leb (intoDate e) (intoDate s) then
    .error "Unable to generate negative date range: try reversing start, end."
  else if Date.ltb (intoDate s) EARLIEST || Date.ltb latest (intoDate e) then
    .error "Unable to request data for date range: outside available data."
  else
    .ok ⟨intoDate s, intoDate e⟩

/-! ### Claim C2 -/

/-- **C2**: `DateRange` equality and hashing are determined solely by the
required monthly source files: `a == b` iff the `file_stems` agree, equality
implies hash equality, and two constructed ranges with different start and
end days inside the same months compare equal while being distinct objects. -/
theorem dateRange_eq_hash_by_file_stems :
    (∀ a b : DateRange, DateRange.eq a b = true ↔ a.file_stems = b.file_stems)
    ∧ (∀ a b : DateRange, DateRange.eq a b = true →
        DateRange.hashVal a = DateRange.hashVal b)
    ∧ (DateRange.init ⟨2024, 12, 31⟩ (.ymd 2001 1 5) (.ymd 2001 3 20)
        = .ok ⟨⟨2001, 1, 5⟩, ⟨2001, 3, 20⟩⟩
       ∧ DateRange.init ⟨2024, 12, 31⟩ (.ymd 2001 1 1) (.ymd 2001 3 25)
        = .ok ⟨⟨2001, 1, 1⟩, ⟨2001, 3, 25⟩⟩
       ∧ DateRange.eq ⟨⟨2001, 1, 5⟩, ⟨2001, 3, 20⟩⟩ ⟨⟨2001, 1, 1⟩, ⟨2001, 3, 25⟩⟩ = true
       ∧ (⟨⟨2001, 1, 5⟩, ⟨2001, 3, 20⟩⟩ : DateRange) ≠ ⟨⟨2001, 1, 1⟩, ⟨2001, 3, 25⟩⟩) := by
  refine ⟨fun a b => by simp [DateRange.eq], fun a b h => ?_, by decide, by decide,
    by decide, by decide⟩
  have hs : a.file_stems = b.file_stems := by simpa [DateRange.eq] using h
  simp [DateRange.hashVal, hs]

/-- Witness for C2: the hash-congruence part applied to the two concrete
equal-up-to-days ranges. -/
theorem dateRange_eq_hash_by_file_stems_witness :
    DateRange.hashVal ⟨⟨2001, 1, 5⟩, ⟨2001, 3, 20⟩⟩
      = DateRange.hashVal ⟨⟨2001, 1, 1⟩, ⟨2001, 3, 25⟩⟩ :=
  dateRange_eq_hash_by_file_stems.2.1 _ _ (by decide)

/-! ### `Spec` validation (flights.py lines 58-199, 388-604) -/

/-- Generic observation of whether an embedded call raised. -/
def raises {α : Type} : Except String α → Bool
  | .ok _ => false
  | .error _ => true

/-- The `Column` literal type's member names. -/
def COLUMN_NAMES : List String :=
  ["date", "time", "delay", "distance", "origin", "destination",
   "ScheduledFlightDate", "ScheduledFlightTime", "DepDelay"]

/-- `COLUMNS_DEFAULT`. -/
def COLUMNS_DEFAULT : List String :=
  ["date", "delay", "distance", "origin", "destination"]

/-- `is_columns`: every provided name is a recognized `Column`. -/
def is_columns (cols : List String) : Bool :=
  cols.all (COLUMN_NAMES.contains ·)

/-- `is_rows`: positive, and below a thousand or an exact multiple of the
band size below one trillion. -/
def is_rows (n : Int) : Bool :=
  if 1 ≤ n ∧ n < 1000 then true
  else if 1000 ≤ n ∧ n < 1000000 then n % 1000 == 0
  else if 1000000 ≤ n ∧ n < 1000000000 then n % 1000000 == 0
  else if 1000000000 ≤ n ∧ n < 1000000000000 then n % 1000000000 == 0
  else false

/-- The `Extension` literal type's members. -/
def EXTENSIONS : List String := [".arrow", ".csv", ".json", ".parquet"]

/-- `is_extension`. -/
def is_extension (s : String) : Bool := EXTENSIONS.contains s

/-- `is_chrono_str`. -/
def is_chrono_str (s : String) : Bool :=
  s == "%Y/%m/%d %H:%M" || s.startsWith "%"

/-- `is_datetime_format` (`None` is accepted). -/
def is_datetime_format : Option String → Bool
  | none => true
  | some s => s == "iso" || s == "iso:strict" || s == "decimal" || is_chrono_str s

/-- Values appearing in write-option mappings (strings, ints, `None`). -/
inductive WVal where
  | str (s : String)
  | int (i : Int)
  | null
deriving DecidableEq

/-- A write-options mapping: string keys, ordered as inserted. -/
abbrev WriteOptions := List (String × WVal)

/-- Python truthiness of the optional `write_options` argument:
`None` and `{}` are falsy. -/
def writeOptionsTruthy : Option WriteOptions → Bool
  | none => false
  | some [] => false
  | some (_ :: _) => true

/-- `Spec._WRITE_OPTIONS`: default keyword arguments per output format
(`dict.get` returns `{}` for `.json`). -/
def WRITE_OPTIONS_DEFAULTS (suffix : String) : WriteOptions :=
  if suffix = ".arrow" then [("compression", .str "uncompressed")]
  else if suffix = ".parquet" then
    [("compression", .str "zstd"), ("compression_level", .int 22)]
  else if suffix = ".csv" then
    [("date_format", .null), ("datetime_format", .null),
     ("time_format", .null), ("null_value", .null)]
  else []

/-- `dict.__setitem__`: overwrite in place, else append. -/
def setKey (l : WriteOptions) (k : String) (v : WVal) : WriteOptions :=
  if l.any (·.1 == k) then l.map (fun e => if e.1 == k then (k, v) else e)
  else l ++ [(k, v)]

/-- `dict.update`. -/
def updateOptions (defaults : WriteOptions) : WriteOptions → WriteOptions
  | [] => defaults
  | (k, v) :: rest => updateOptions (setKey defaults k v) rest

/-- `Spec` after successful construction. -/
structure Spec where
  range : DateRange
  n_rows : Int
  suffix : String
  dt_format : Option String
  columns : List String
  write_options : WriteOptions
deriving DecidableEq

/-- `Spec._merge_write_options` (parameterized by `self.suffix`). -/
def Spec.mergeWriteOptions (suffix : String) (kwds : WriteOptions) : WriteOptions :=
  let defaults := WRITE_OPTIONS_DEFAULTS suffix
  if kwds.isEmpty then defaults else updateOptions defaults kwds

/-- `Spec._validate`, with the checks in source order; returns the
normalized `write_options` (`write_options or {}`).  The trailing
`is_write_options` check cannot fail in this typed embedding, where every
key is a string. -/
def Spec.validate (n_rows : Int) (suffix : String) (dt_format : Option String)
    (columns : List String) (write_options : Option WriteOptions) :
    Except String WriteOptions :=
  if ¬ is_columns columns then
    .error "`columns` contains unrecognized names"
  else if ¬ ("date" ∈ columns ∨ "time" ∈ columns) then
    .error "Must specify one of date, time columns"
  else if ¬ is_datetime_format dt_format then
    .error "Unrecognized datetime format"
  else if ¬ is_rows n_rows then
    .error "Number of rows must be below 1000 or a multiple of the band"
  else if ¬ is_extension suffix then
    .error "Unexpected extension"
  else if suffix = ".json" ∧ writeOptionsTruthy write_options then
    .error "Keyword arguments are not supported for write_json"
  else
    .ok (write_options.getD [])

/-- The `range` parameter: an existing `DateRange` or anything
`DateRange.from_dates` accepts (a start/end pair, as tuple or mapping). -/
inductive IntoRangeArg where
  | range (r : DateRange)
  | dates (s e : IntoDate)
deriving DecidableEq

/-- `Spec.__init__`: builds `self.range` first (may raise from
`DateRange.__init__`), then runs `_validate`, then merges write options. -/
def Spec.init (latest : Date) (rng : IntoRangeArg) (n_rows : Int) (suffix : String)
    (dt_format : Option String) (columns : List String)
    (write_options : Option WriteOptions) : Except String Spec :=
  let rangeResult : Except String DateRange :=
    match rng with
    | .range r => .ok r
    | .dates s e => DateRange.init latest s e
  match rangeResult with
  | .error msg => .error msg
  | .ok r =>
    match Spec.validate n_rows suffix dt_format columns write_options with
    | .error msg => .error msg
    | .ok wo =>
      .ok ⟨r, n_rows, suffix, dt_format, columns, Spec.mergeWriteOptions suffix wo⟩

/-- The disjunction of `Spec._validate` failure conditions named by C3. -/
def specValidationFails (n_rows : Int) (suffix : String) (dt_format : Option String)
    (columns : List String) (write_options : Option WriteOptions) : Prop :=
  is_columns columns = false
  ∨ ("date" ∉ columns ∧ "time" ∉ columns)
  ∨ is_datetime_format dt_format = false
  ∨ is_rows n_rows = false
  ∨ is_extension suffix = false
  ∨ (suffix = ".json" ∧ writeOptionsTruthy write_options = true)

/-! ### Claim C3 -/

/-- **C3**: `DateRange.__init__` raises exactly when the normalized start is
not strictly before the normalized end or the range leaves
`[1987-10-01, latest]`; `Spec.__init__` raises exactly when its range does
or one of the `_validate` conditions fails; otherwise construction
succeeds. -/
theorem spec_construction_raises_iff_validation_fails :
    (∀ (latest : Date) (s e : IntoDate),
        IntoDate.wellFormed s = true → IntoDate.wellFormed e = true →
        (raises (DateRange.init latest s e) = true ↔
          (Date.leb (intoDate e) (intoDate s) = true
            ∨ Date.ltb (intoDate s) EARLIEST = true
            ∨ Date.ltb latest (intoDate e) = true)))
    ∧ (∀ (latest : Date) (r : DateRange) (n_rows : Int) (suffix : String)
        (dt_format : Option String) (columns : List String)
        (write_options : Option WriteOptions),
        (raises (Spec.init latest (.range r) n_rows suffix dt_format columns
            write_options) = true ↔
          specValidationFails n_rows suffix dt_format columns write_options))
    ∧ (∀ (latest : Date) (s e : IntoDate) (n_rows : Int) (suffix : String)
        (dt_format : Option String) (columns : List String)
        (write_options : Option WriteOptions),
        (raises (Spec.init latest (.dates s e) n_rows suffix dt_format columns
            write_options) = true ↔
          (raises (DateRange.init latest s e) = true
            ∨ specValidationFails n_rows suffix dt_format columns write_options))) := by
  have hval : ∀ (n_rows : Int) (suffix : String) (dt_format : Option String)
      (columns : List String) (write_options : Option WriteOptions),
      raises (Spec.validate n_rows suffix dt_format columns write_options) = true ↔
        specValidationFails n_rows suffix dt_format columns write_options := by
    intro n suffix dtf cols wo
    unfold Spec.validate specValidationFails
    split_ifs with h1 h2 h3 h4 h5 h6 <;>
      (simp_all [raises]; try tauto)
  refine ⟨fun latest s e _ _ => ?_, fun latest r n suffix dtf cols wo => ?_,
    fun latest s e n suffix dtf cols wo => ?_⟩
  · unfold DateRange.init
    split_ifs with h1 h2 <;> simp_all [raises]
  · unfold Spec.init
    simp only
    rcases hv : Spec.validate n suffix dtf cols wo with msg | wo'
    · simp [raises, ← hval, hv]
    · simp [raises, ← hval, hv]
  · unfold Spec.init
    simp only
    rcases hr : DateRange.init latest s e with msg | r
    · simp [raises, hr]
    · rcases hv : Spec.validate n suffix dtf cols wo with msg | wo'
      · simp [raises, hr, ← hval, hv]
      · simp [raises, hr, ← hval, hv]

/-- Witness for C3: a reversed range raises, and a fully valid `Spec`
construction succeeds. -/
theorem spec_construction_raises_iff_validation_fails_witness :
    raises (DateRange.init ⟨2024, 12, 31⟩ (.ymd 2001 5 1) (.ymd 2001 2 1)) = true
    ∧ raises (Spec.init ⟨2024, 12, 31⟩ (.dates (.ymd 2001 1 1) (.ymd 2001 12 31))
        5000 ".csv" (some "iso:strict") COLUMNS_DEFAULT none) = false := by
  constructor
  · exact (spec_construction_raises_iff_validation_fails.1 ⟨2024, 12, 31⟩
      (.ymd 2001 5 1) (.ymd 2001 2 1) (by decide) (by decide)).mpr
      (Or.inl (by decide))
  · by_contra h
    have := (spec_construction_raises_iff_validation_fails.2.2 ⟨2024, 12, 31⟩
      (.ymd 2001 1 1) (.ymd 2001 12 31) 5000 ".csv" (some "iso:strict")
      COLUMNS_DEFAULT none).mp (by revert h; cases hx : raises _ <;> simp)
    rcases this with h1 | h2
    · exact absurd h1 (by decide)
    · exact absurd h2 (by simp [specValidationFails]; decide)

/-! ### `Spec.name` (flights.py lines 463-487) and its injectivity -/

/-- Fuel-driven digit extraction (structural recursion, so the kernel can
evaluate it). -/
def natDigitsRevGo (fuel n : Nat) : List Nat :=
  match fuel with
  | 0 => []
  | fuel + 1 => if n < 10 then [n] else n % 10 :: natDigitsRevGo fuel (n / 10)

/-- Decimal digits of `n`, least significant first (always nonempty). -/
def natDigitsRev (n : Nat) : List Nat :=
  natDigitsRevGo (n + 1) n

theorem natDigitsRevGo_congr : ∀ f1 f2 n : Nat, n < f1 → n < f2 →
    natDigitsRevGo f1 n = natDigitsRevGo f2 n := by
  intro f1
  induction f1 using Nat.strong_induction_on with
  | _ f1 ih =>
    intro f2 n h1 h2
    cases f1 with
    | zero => omega
    | succ f1' =>
      cases f2 with
      | zero => omega
      | succ f2' =>
        simp only [natDigitsRevGo]
        by_cases h : n < 10
        · simp [h]
        · simp only [h, if_false]
          congr 1
          exact ih f1' (by omega) f2' (n / 10) (by omega) (by omega)

theorem natDigitsRev_unfold (n : Nat) :
    natDigitsRev n = if n < 10 then [n] else n % 10 :: natDigitsRev (n / 10) := by
  show natDigitsRevGo (n + 1) n = _
  rw [natDigitsRevGo]
  by_cases h : n < 10
  · simp [h]
  · simp only [h, if_false]
    congr 1
    exact natDigitsRevGo_congr n (n / 10 + 1) (n / 10) (by omega) (by omega)

/-- The character for one decimal digit. -/
def digitChar : Nat → Char
  | 0 => '0' | 1 => '1' | 2 => '2' | 3 => '3' | 4 => '4'
  | 5 => '5' | 6 => '6' | 7 => '7' | 8 => '8' | _ => '9'

/-- Decimal rendering of a natural number, as a CPython f-string would
produce it. -/
def natDecimal (n : Nat) : String :=
  String.mk ((natDigitsRev n).reverse.map digitChar)

/-- Decimal rendering of an integer. -/
def intDecimal (i : Int) : String :=
  if i < 0 then "-" ++ natDecimal i.natAbs else natDecimal i.toNat

/-- The short form of `n_rows` used by `Spec.name`: `//`-divisions with the
band suffix `b`/`m`/`k`, or the bare number below a thousand. -/
def specShort (n_rows : Int) : String :=
  if 1000000 ≤ n_rows.fdiv 1000 then intDecimal ((n_rows.fdiv 1000).fdiv 1000000) ++ "b"
  else if 1000 ≤ n_rows.fdiv 1000 then intDecimal ((n_rows.fdiv 1000).fdiv 1000) ++ "m"
  else if 1 ≤ n_rows.fdiv 1000 then intDecimal (n_rows.fdiv 1000) ++ "k"
  else intDecimal n_rows

/-- `Spec._PREFIX`. -/
def NAME_HEAD : String := "flights-"

/-- `Spec.name`: `f"{self._PREFIX}{s}{self.suffix}"`. -/
def Spec.name (s : Spec) : String :=
  NAME_HEAD ++ specShort s.n_rows ++ s.suffix

/-- Value of a least-significant-first digit list. -/
def ofDigitsRev : List Nat → Nat
  | [] => 0
  | d :: ds => d + 10 * ofDigitsRev ds

theorem ofDigitsRev_natDigitsRev (n : Nat) : ofDigitsRev (natDigitsRev n) = n := by
  induction n using Nat.strong_induction_on with
  | _ n ih =>
    rw [natDigitsRev_unfold]
    by_cases h : n < 10
    · simp [h, ofDigitsRev]
    · simp only [h, if_false, ofDigitsRev]
      rw [ih (n / 10) (Nat.div_lt_self (by omega) (by omega))]
      omega

theorem natDigitsRev_lt_ten (n : Nat) : ∀ d ∈ natDigitsRev n, d < 10 := by
  induction n using Nat.strong_induction_on with
  | _ n ih =>
    rw [natDigitsRev_unfold]
    by_cases h : n < 10
    · simp [h]
    · simp only [h, if_false, List.mem_cons]
      rintro d (rfl | hd)
      · omega
      · exact ih (n / 10) (Nat.div_lt_self (by omega) (by omega)) d hd

theorem natDigitsRev_ne_nil (n : Nat) : natDigitsRev n ≠ [] := by
  rw [natDigitsRev_unfold]
  split <;> simp

theorem natDigitsRev_inj {a b : Nat} (h : natDigitsRev a = natDigitsRev b) : a = b := by
  have ha := ofDigitsRev_natDigitsRev a
  rw [h, ofDigitsRev_natDigitsRev] at ha
  omega

/-- Inverse of `digitChar` on real digits. -/
def charVal (c : Char) : Nat := c.toNat - 48

theorem charVal_digitChar {d : Nat} (h : d < 10) : charVal (digitChar d) = d := by
  interval_cases d <;> decide

theorem digitChar_inj {d1 d2 : Nat} (h1 : d1 < 10) (h2 : d2 < 10)
    (h : digitChar d1 = digitChar d2) : d1 = d2 := by
  have := charVal_digitChar h1
  rw [h, charVal_digitChar h2] at this
  omega

theorem map_digitChar_inj : ∀ l1 l2 : List Nat, (∀ d ∈ l1, d < 10) → (∀ d ∈ l2, d < 10) →
    l1.map digitChar = l2.map digitChar → l1 = l2 := by
  intro l1
  induction l1 with
  | nil => intro l2 _ _ h; cases l2 <;> simp_all
  | cons a t ih =>
    intro l2 h1 h2 h
    cases l2 with
    | nil => simp_all
    | cons b t2 =>
      simp only [List.map_cons, List.cons.injEq] at h
      have hab := digitChar_inj (h1 a (by simp)) (h2 b (by simp)) h.1
      have ht := ih t2 (fun d hd => h1 d (by simp [hd])) (fun d hd => h2 d (by simp [hd])) h.2
      rw [hab, ht]

theorem natDecimal_inj {a b : Nat} (h : natDecimal a = natDecimal b) : a = b := by
  have hd := congrArg String.data h
  simp only [natDecimal] at hd
  have hmaps := map_digitChar_inj (natDigitsRev a).reverse (natDigitsRev b).reverse
    (fun d hd => natDigitsRev_lt_ten a d (List.mem_reverse.mp hd))
    (fun d hd => natDigitsRev_lt_ten b d (List.mem_reverse.mp hd)) hd
  exact natDigitsRev_inj (List.reverse_injective hmaps)

theorem natDecimal_getLast (n : Nat) :
    ∃ d, d < 10 ∧ (natDecimal n).data.getLast? = some (digitChar d) := by
  obtain ⟨d, rest, hcons⟩ : ∃ d rest, natDigitsRev n = d :: rest := by
    cases h : natDigitsRev n with
    | nil => exact absurd h (natDigitsRev_ne_nil n)
    | cons d rest => exact ⟨d, rest, rfl⟩
  refine ⟨d, natDigitsRev_lt_ten n d (by rw [hcons]; simp), ?_⟩
  show ((natDigitsRev n).reverse.map digitChar).getLast? = some (digitChar d)
  rw [hcons]
  simp [List.getLast?_concat]

theorem natDecimal_ne_append_letter {a b : Nat} {c : Char}
    (hc : ∀ d, d < 10 → digitChar d ≠ c) :
    natDecimal a ≠ natDecimal b ++ ⟨[c]⟩ := by
  intro h
  obtain ⟨d, hd10, hlast⟩ := natDecimal_getLast a
  have h' := congrArg String.data h
  have hdata : (natDecimal a).data = (natDecimal b).data ++ [c] := h'
  rw [hdata, List.getLast?_concat] at hlast
  exact hc d hd10 (by injection hlast with h''; exact h''.symm)

theorem append_letter_inj {s t : String} {c : Char} (h : s ++ ⟨[c]⟩ = t ++ ⟨[c]⟩) :
    s = t := by
  have h' : s.data ++ [c] = t.data ++ [c] := congrArg String.data h
  have hst := List.append_cancel_right h'
  cases s; cases t
  exact congrArg String.mk hst

theorem append_letter_ne {s t : String} {c1 c2 : Char} (hne : c1 ≠ c2) :
    s ++ ⟨[c1]⟩ ≠ t ++ ⟨[c2]⟩ := by
  intro h
  have h' : s.data ++ [c1] = t.data ++ [c2] := congrArg String.data h
  have hl := congrArg List.getLast? h'
  rw [List.getLast?_concat, List.getLast?_concat] at hl
  exact hne (by injection hl)

/-- `shortNat`: `specShort` restricted to naturals (CPython `//` agrees with
Nat division on non-negative values). -/
def shortNat (N : Nat) : String :=
  if 1000000 ≤ N / 1000 then natDecimal (N / 1000 / 1000000) ++ "b"
  else if 1000 ≤ N / 1000 then natDecimal (N / 1000 / 1000) ++ "m"
  else if 1 ≤ N / 1000 then natDecimal (N / 1000) ++ "k"
  else natDecimal N

theorem intDecimal_coe (a : Nat) : intDecimal (a : Int) = natDecimal a := by
  unfold intDecimal
  rw [if_neg (by omega)]
  norm_num

theorem specShort_coe (N : Nat) : specShort (N : Int) = shortNat N := by
  unfold specShort shortNat
  rw [show (1000 : Int) = ((1000 : Nat) : Int) from by norm_num,
    show (1000000 : Int) = ((1000000 : Nat) : Int) from by norm_num,
    show (1 : Int) = ((1 : Nat) : Int) from by norm_num,
    ← Int.ofNat_fdiv, ← Int.ofNat_fdiv, ← Int.ofNat_fdiv]
  simp only [intDecimal_coe, Nat.cast_le]

/-- The four shapes a valid `Rows` value can take. -/
def RowsBands (N : Nat) : Prop :=
  (1 ≤ N ∧ N < 1000)
  ∨ (∃ k, 1 ≤ k ∧ k < 1000 ∧ N = 1000 * k)
  ∨ (∃ k, 1 ≤ k ∧ k < 1000 ∧ N = 1000000 * k)
  ∨ (∃ k, 1 ≤ k ∧ k < 1000 ∧ N = 1000000000 * k)

theorem is_rows_pos {n : Int} (h : is_rows n = true) : 1 ≤ n := by
  unfold is_rows at h
  split_ifs at h <;> omega

theorem is_rows_bands {n : Int} (h : is_rows n = true) : RowsBands n.toNat := by
  unfold is_rows at h
  unfold RowsBands
  split_ifs at h with h1 h2 h3 h4
  · left; omega
  · have hmod : n % 1000 = 0 := by simpa using h
    exact Or.inr (Or.inl ⟨n.toNat / 1000, by omega, by omega, by omega⟩)
  · have hmod : n % 1000000 = 0 := by simpa using h
    exact Or.inr (Or.inr (Or.inl ⟨n.toNat / 1000000, by omega, by omega, by omega⟩))
  · have hmod : n % 1000000000 = 0 := by simpa using h
    exact Or.inr (Or.inr (Or.inr ⟨n.toNat / 1000000000, by omega, by omega, by omega⟩))

theorem shortNat_band0 {N : Nat} (h1 : 1 ≤ N) (h2 : N < 1000) :
    shortNat N = natDecimal N := by
  unfold shortNat
  rw [if_neg (by omega), if_neg (by omega), if_neg (by omega)]

theorem shortNat_band1 {k : Nat} (h1 : 1 ≤ k) (h2 : k < 1000) :
    shortNat (1000 * k) = natDecimal k ++ "k" := by
  unfold shortNat
  have hq : 1000 * k / 1000 = k := by omega
  rw [hq, if_neg (by omega), if_neg (by omega), if_pos (by omega)]

theorem shortNat_band2 {k : Nat} (h1 : 1 ≤ k) (h2 : k < 1000) :
    shortNat (1000000 * k) = natDecimal k ++ "m" := by
  unfold shortNat
  have hq : 1000000 * k / 1000 = 1000 * k := by omega
  have hq2 : 1000 * k / 1000 = k := by omega
  rw [hq, if_neg (by omega), if_pos (by omega), hq2]

theorem shortNat_band3 {k : Nat} (h1 : 1 ≤ k) (h2 : k < 1000) :
    shortNat (1000000000 * k) = natDecimal k ++ "b" := by
  unfold shortNat
  have hq : 1000000000 * k / 1000 = 1000000 * k := by omega
  have hq2 : 1000000 * k / 1000000 = k := by omega
  rw [hq, if_pos (by omega), hq2]

theorem shortNat_inj {m n : Nat} (hm : RowsBands m) (hn : RowsBands n)
    (h : shortNat m = shortNat n) : m = n := by
  have hks : ("k" : String) = ⟨['k']⟩ := rfl
  have hms : ("m" : String) = ⟨['m']⟩ := rfl
  have hbs : ("b" : String) = ⟨['b']⟩ := rfl
  have digk : ∀ d, d < 10 → digitChar d ≠ 'k' := by
    intro d hd; interval_cases d <;> decide
  have digm : ∀ d, d < 10 → digitChar d ≠ 'm' := by
    intro d hd; interval_cases d <;> decide
  have digb : ∀ d, d < 10 → digitChar d ≠ 'b' := by
    intro d hd; interval_cases d <;> decide
  rcases hm with ⟨a1, a2⟩ | ⟨k1, hk1, hk2, rfl⟩ | ⟨k1, hk1, hk2, rfl⟩ | ⟨k1, hk1, hk2, rfl⟩ <;>
    rcases hn with ⟨b1, b2⟩ | ⟨k2, hj1, hj2, rfl⟩ | ⟨k2, hj1, hj2, rfl⟩ | ⟨k2, hj1, hj2, rfl⟩
  · rw [shortNat_band0 a1 a2, shortNat_band0 b1 b2] at h
    exact natDecimal_inj h
  · rw [shortNat_band0 a1 a2, shortNat_band1 hj1 hj2, hks] at h
    exact absurd h (natDecimal_ne_append_letter digk)
  · rw [shortNat_band0 a1 a2, shortNat_band2 hj1 hj2, hms] at h
    exact absurd h (natDecimal_ne_append_letter digm)
  · rw [shortNat_band0 a1 a2, shortNat_band3 hj1 hj2, hbs] at h
    exact absurd h (natDecimal_ne_append_letter digb)
  · rw [shortNat_band1 hk1 hk2, shortNat_band0 b1 b2, hks] at h
    exact absurd h.symm (natDecimal_ne_append_letter digk)
  · rw [shortNat_band1 hk1 hk2, shortNat_band1 hj1 hj2, hks] at h
    rw [natDecimal_inj (append_letter_inj h)]
  · rw [shortNat_band1 hk1 hk2, shortNat_band2 hj1 hj2, hks, hms] at h
    exact absurd h (append_letter_ne (by decide))
  · rw [shortNat_band1 hk1 hk2, shortNat_band3 hj1 hj2, hks, hbs] at h
    exact absurd h (append_letter_ne (by decide))
  · rw [shortNat_band2 hk1 hk2, shortNat_band0 b1 b2, hms] at h
    exact absurd h.symm (natDecimal_ne_append_letter digm)
  · rw [shortNat_band2 hk1 hk2, shortNat_band1 hj1 hj2, hms, hks] at h
    exact absurd h (append_letter_ne (by decide))
  · rw [shortNat_band2 hk1 hk2, shortNat_band2 hj1 hj2, hms] at h
    rw [natDecimal_inj (append_letter_inj h)]
  · rw [shortNat_band2 hk1 hk2, shortNat_band3 hj1 hj2, hms, hbs] at h
    exact absurd h (append_letter_ne (by decide))
  · rw [shortNat_band3 hk1 hk2, shortNat_band0 b1 b2, hbs] at h
    exact absurd h.symm (natDecimal_ne_append_letter digb)
  · rw [shortNat_band3 hk1 hk2, shortNat_band1 hj1 hj2, hbs, hks] at h
    exact absurd h (append_letter_ne (by decide))
  · rw [shortNat_band3 hk1 hk2, shortNat_band2 hj1 hj2, hbs, hms] at h
    exact absurd h (append_letter_ne (by decide))
  · rw [shortNat_band3 hk1 hk2, shortNat_band3 hj1 hj2, hbs] at h
    rw [natDecimal_inj (append_letter_inj h)]

/-- Sanity check of the short-form encoding against the docstring table. -/
theorem specShort_examples :
    specShort 10000 = "10k" ∧ specShort 1000000 = "1m"
    ∧ specShort 12000000000 = "12b" ∧ specShort 30 = "30" := by
  refine ⟨?_, ?_, ?_, ?_⟩ <;> decide

/-! ### Claim C9 -/

/-- **C9**: the short-form row-count encoding is injective on valid `Rows`
values: two specs with distinct `is_rows`-accepted row counts and the same
suffix get distinct output names from `Spec.name`. -/
theorem spec_name_injective_on_rows (s1 s2 : Spec)
    (h1 : is_rows s1.n_rows = true) (h2 : is_rows s2.n_rows = true)
    (hne : s1.n_rows ≠ s2.n_rows) (hsuf : s1.suffix = s2.suffix) :
    Spec.name s1 ≠ Spec.name s2 := by
  intro h
  unfold Spec.name at h
  rw [hsuf] at h
  have hDataEq : (NAME_HEAD.data ++ (specShort s1.n_rows).data) ++ s2.suffix.data
      = (NAME_HEAD.data ++ (specShort s2.n_rows).data) ++ s2.suffix.data :=
    congrArg String.data h
  have hshortData := List.append_cancel_left (List.append_cancel_right hDataEq)
  have hshort : specShort s1.n_rows = specShort s2.n_rows := by
    have hmk := congrArg String.mk hshortData
    exact hmk
  have e1 : ((s1.n_rows.toNat : Nat) : Int) = s1.n_rows :=
    Int.toNat_of_nonneg (by have := is_rows_pos h1; omega)
  have e2 : ((s2.n_rows.toNat : Nat) : Int) = s2.n_rows :=
    Int.toNat_of_nonneg (by have := is_rows_pos h2; omega)
  rw [← e1, ← e2, specShort_coe, specShort_coe] at hshort
  have heq := shortNat_inj (is_rows_bands h1) (is_rows_bands h2) hshort
  apply hne
  omega

/-- Witness for C9: `flights-10k.csv` differs from `flights-1m.csv`. -/
theorem spec_name_injective_on_rows_witness :
    Spec.name ⟨⟨⟨2001, 1, 1⟩, ⟨2001, 2, 1⟩⟩, 10000, ".csv", none, COLUMNS_DEFAULT, []⟩
      ≠ Spec.name ⟨⟨⟨2001, 1, 1⟩, ⟨2001, 2, 1⟩⟩, 1000000, ".csv", none, COLUMNS_DEFAULT, []⟩ :=
  spec_name_injective_on_rows _ _ (by decide) (by decide) (by decide) rfl

/-! ### `SourceMap.clean` (flights.py lines 674-749) -/

/-- A time of day (`datetime.time` restricted to hour/minute, which is all
`"%H%M"` parsing can produce). -/
structure Time where
  hour : Nat
  minute : Nat
deriving DecidableEq

/-- `pl.time(0, 0, 0, 0)`. -/
def midnight : Time := ⟨0, 0⟩

/-- `str.to_time("%H%M")`: strict parse of a 4-digit `HHMM` string; polars
raises a `ComputeError` at collect time on failure, modelled as `none`. -/
def parseHHMM (s : String) : Option Time :=
  match s.data with
  | [h1, h2, m1, m2] =>
    if h1.isDigit && h2.isDigit && m1.isDigit && m2.isDigit then
      let hh := (h1.toNat - 48) * 10 + (h2.toNat - 48)
      let mm := (m1.toNat - 48) * 10 + (m2.toNat - 48)
      if hh < 24 && mm < 60 then some ⟨hh, mm⟩ else none
    else none
  | _ => none

/-- Replace the first occurrence of `pat` (a nonempty literal pattern) in a
character list. -/
def replaceFirstChars (s pat rep : List Char) : List Char :=
  match s with
  | [] => []
  | c :: rest =>
    if pat.isPrefixOf (c :: rest) then rep ++ (c :: rest).drop pat.length
    else c :: replaceFirstChars rest pat rep

/-- `pl.Expr.str.replace(pat, rep)`: first occurrence only. -/
def replaceFirst (s pat rep : String) : String :=
  ⟨replaceFirstChars s.data pat.data rep.data⟩

/-- One row of the documented **input schema** of `SourceMap.clean`
(`Float64` columns modelled as nullable integers, see the header note). -/
structure RawRow where
  FlightDate : Date
  CRSDepTime : String
  DepTime : String
  DepDelay : Option Int
  ArrDelay : Option Int
  Distance : Option Int
  Origin : String
  Dest : String
  Cancelled : Option Int
deriving DecidableEq

/-- One row of the documented **output schema** of `SourceMap.clean`.
`delay`/`distance`/`DepDelay` stay nullable (polars integer columns are
nullable), though the filter guarantees values for every kept row. -/
structure CleanRow where
  date : Date × Time
  delay : Option Int
  distance : Option Int
  origin : String
  destination : String
  ScheduledFlightDate : Date
  ScheduledFlightTime : Time
  DepDelay : Option Int
deriving DecidableEq

/-- The filter predicate of `clean`:
`pl.any_horizontal(Cancelled.cast(bool), DepTime == "", cs.float().is_null())`.
A null `Cancelled` makes the cast-to-bool component null, but its own
`is_null` component is then true, so Kleene logic still drops the row. -/
def SourceMap.droppedRow (r : RawRow) : Bool :=
  (match r.Cancelled with | some c => decide (c ≠ 0) | none => false)
  || r.DepTime == ""
  || r.DepDelay.isNone || r.ArrDelay.isNone || r.Distance.isNone || r.Cancelled.isNone

/-- The per-row effect of `clean` after the filter: `wrap_midnight` parses
both `*DepTime` columns after the `"2400"` to `"0000"` replacement (the
float-to-int casts are the identity on the integral model), and the select
builds the output row, shifting the combined datetime one day forward when
the departure time is midnight. -/
def SourceMap.cleanRowE (r : RawRow) : Except String CleanRow :=
  match parseHHMM (replaceFirst r.CRSDepTime "2400" "0000"),
      parseHHMM (replaceFirst r.DepTime "2400" "0000") with
  | some crs, some dep =>
    .ok { date := if dep = midnight then (r.FlightDate.nextDay, dep) else (r.FlightDate, dep)
          delay := r.ArrDelay
          distance := r.Distance
          origin := r.Origin
          destination := r.Dest
          ScheduledFlightDate := r.FlightDate
          ScheduledFlightTime := crs
          DepDelay := r.DepDelay }
  | _, _ => .error "ComputeError: conversion from string to time failed"

/-- `SourceMap.clean`: drop the malformed rows, then apply the column
corrections and the renaming select to each surviving row. -/
def SourceMap.clean (ldf : List RawRow) : Except String (List CleanRow) :=
  (ldf.filter (fun r => ! SourceMap.droppedRow r)).mapM SourceMap.cleanRowE

/-- What `SourceMap.clean` logs: nothing.  The method body contains no
`logger` call (the module logs only in `from_specs`, `write`,
`missing_stems`, and the download helpers). -/
def SourceMap.cleanLog (_ldf : List RawRow) : List String := []

/-- Both `*DepTime` strings of a row parse as `HHMM` times after the
midnight replacement. -/
def timesParse (r : RawRow) : Bool :=
  (parseHHMM (replaceFirst r.CRSDepTime "2400" "0000")).isSome
  && (parseHHMM (replaceFirst r.DepTime "2400" "0000")).isSome

theorem cleanRowE_ok_iff (r : RawRow) :
    raises (SourceMap.cleanRowE r) = false ↔ timesParse r = true := by
  unfold SourceMap.cleanRowE timesParse
  rcases parseHHMM (replaceFirst r.CRSDepTime "2400" "0000") with _ | crs <;>
    rcases parseHHMM (replaceFirst r.DepTime "2400" "0000") with _ | dep <;>
    simp [raises]

theorem mapM_ok_of_no_raise {α β : Type} (f : α → Except String β) :
    ∀ l : List α, (∀ a ∈ l, raises (f a) = false) →
      l.mapM f = .ok (l.filterMap (fun a => (f a).toOption))
      ∧ (l.filterMap (fun a => (f a).toOption)).length = l.length := by
  intro l
  induction l with
  | nil => intro _; exact ⟨rfl, rfl⟩
  | cons a t ih =>
    intro h
    have ha : raises (f a) = false := h a (List.mem_cons_self a t)
    obtain ⟨b, hb⟩ : ∃ b, f a = .ok b := by
      rcases hfa : f a with msg | b
      · rw [hfa] at ha; simp [raises] at ha
      · exact ⟨b, rfl⟩
    obtain ⟨hmap, hlen⟩ := ih (fun x hx => h x (List.mem_cons_of_mem a hx))
    constructor
    · rw [List.mapM_cons, hb, hmap]
      simp [List.filterMap_cons, Except.toOption, hb]
      rfl
    · have hfc : List.filterMap (fun a => (f a).toOption) (a :: t)
          = b :: List.filterMap (fun a => (f a).toOption) t := by
        simp [List.filterMap_cons, hb, Except.toOption]
      rw [hfc]
      simp [hlen]

/-! ### Claim C4 -/

/-- **C4** (counterexample to the claim as stated): the claim says malformed
rows are "dropped and logged".  A cancelled row is indeed dropped, but
`SourceMap.clean` logs nothing at all; and a row matching the documented
input schema whose `DepTime` is a non-time string is not "kept" either —
the pipeline raises on it. -/
theorem clean_does_not_log_dropped_rows :
    SourceMap.clean
        [⟨⟨2001, 1, 1⟩, "0600", "0630", some 0, some 0, some 100, "SFO", "LAX", some 1⟩]
      = .ok []
    ∧ SourceMap.cleanLog
        [⟨⟨2001, 1, 1⟩, "0600", "0630", some 0, some 0, some 100, "SFO", "LAX", some 1⟩] = []
    ∧ raises (SourceMap.clean
        [⟨⟨2001, 1, 1⟩, "0600", "XXQQ", some 0, some 0, some 100, "SFO", "LAX", some 0⟩]) = true := by
  refine ⟨by decide, rfl, by decide⟩

/-- **C4** (amended): for every input frame with the documented input schema
whose non-malformed rows carry parseable `HHMM` time strings, the malformed
rows — cancelled, empty departure time, or containing a null float — are
dropped (silently: `clean` logs nothing), and every other row is kept,
exactly one output row per kept row, produced by the documented renames,
casts and midnight correction (`cleanRowE`). -/
theorem clean_drops_malformed_keeps_rest (ldf : List RawRow)
    (hp : ∀ r ∈ ldf, SourceMap.droppedRow r = false → timesParse r = true) :
    SourceMap.clean ldf
      = .ok ((ldf.filter (fun r => ! SourceMap.droppedRow r)).filterMap
          (fun r => (SourceMap.cleanRowE r).toOption))
    ∧ ((ldf.filter (fun r => ! SourceMap.droppedRow r)).filterMap
          (fun r => (SourceMap.cleanRowE r).toOption)).length
        = (ldf.filter (fun r => ! SourceMap.droppedRow r)).length
    ∧ SourceMap.cleanLog ldf = [] := by
  have hall : ∀ r ∈ ldf.filter (fun r => ! SourceMap.droppedRow r),
      raises (SourceMap.cleanRowE r) = false := by
    intro r hr
    rw [cleanRowE_ok_iff]
    have hm := List.mem_filter.mp hr
    exact hp r hm.1 (by simpa using hm.2)
  obtain ⟨h1, h2⟩ := mapM_ok_of_no_raise SourceMap.cleanRowE _ hall
  exact ⟨h1, h2, rfl⟩

/-- Witness for C4 (amended): one malformed and one good row; the good row
is kept as its cleaned image, the cancelled row disappears, the log is
empty. -/
theorem clean_drops_malformed_keeps_rest_witness :
    SourceMap.clean
        [⟨⟨2001, 1, 1⟩, "0600", "0630", some 0, some 0, some 100, "SFO", "LAX", some 1⟩,
         ⟨⟨2001, 1, 1⟩, "0600", "0630", some 2, some 3, some 100, "SFO", "LAX", some 0⟩]
      = .ok ((([⟨⟨2001, 1, 1⟩, "0600", "0630", some 0, some 0, some 100, "SFO", "LAX", some 1⟩,
         ⟨⟨2001, 1, 1⟩, "0600", "0630", some 2, some 3, some 100, "SFO", "LAX", some 0⟩] :
           List RawRow).filter (fun r => ! SourceMap.droppedRow r)).filterMap
          (fun r => (SourceMap.cleanRowE r).toOption)) :=
  (clean_drops_malformed_keeps_rest _ (by decide)).1

/-! ### Claim C8: `flights2.py`'s `SourceMap.clean` -/

/-- The filter predicate of `SourceMap.clean` in `flights2.py`
(lines 516-591), a line-for-line duplicate of the flights.py expression. -/
def Flights2.droppedRow (r : RawRow) : Bool :=
  (match r.Cancelled with | some c => decide (c ≠ 0) | none => false)
  || r.DepTime == ""
  || r.DepDelay.isNone || r.ArrDelay.isNone || r.Distance.isNone || r.Cancelled.isNone

/-- The per-row corrections and select of `flights2.py`'s `clean`. -/
def Flights2.cleanRowE (r : RawRow) : Except String CleanRow :=
  match parseHHMM (replaceFirst r.CRSDepTime "2400" "0000"),
      parseHHMM (replaceFirst r.DepTime "2400" "0000") with
  | some crs, some dep =>
    .ok { date := if dep = midnight then (r.FlightDate.nextDay, dep) else (r.FlightDate, dep)
          delay := r.ArrDelay
          distance := r.Distance
          origin := r.Origin
          destination := r.Dest
          ScheduledFlightDate := r.FlightDate
          ScheduledFlightTime := crs
          DepDelay := r.DepDelay }
  | _, _ => .error "ComputeError: conversion from string to time failed"

/-- `SourceMap.clean` as defined in `flights2.py`. -/
def Flights2.SourceMap.clean (ldf : List RawRow) : Except String (List CleanRow) :=
  (ldf.filter (fun r => ! Flights2.droppedRow r)).mapM Flights2.cleanRowE

/-- **C8**: the cleaning stage of `flights2.py` denotes the same function as
the one in `flights.py`: equal output frames (same filter, same corrections,
same output schema) on every input frame of the documented schema. -/
theorem flights2_clean_eq_flights_clean :
    ∀ ldf : List RawRow, Flights2.SourceMap.clean ldf = SourceMap.clean ldf :=
  fun _ => rfl

/-! ### `Spec.write` dispatch (flights.py lines 511-539) and Claim C10 -/

/-- The four format writers `Spec.write` can dispatch to. -/
inductive WriteAction where
  | arrow
  | csv
  | json
  | parquet
deriving DecidableEq

/-- `Spec.write`'s dispatch on `self.suffix`: one writer per known
extension; the fallback branch unlinks the touched file and raises
`NotImplementedError`. -/
def Spec.write (s : Spec) : Except String WriteAction :=
  if s.suffix = ".arrow" then .ok .arrow
  else if s.suffix = ".csv" then .ok .csv
  else if s.suffix = ".json" then .ok .json
  else if s.suffix = ".parquet" then .ok .parquet
  else .error "Unexpected extension"

theorem init_ok_suffix {latest : Date} {rng : IntoRangeArg} {n_rows : Int}
    {suffix : String} {dt_format : Option String} {columns : List String}
    {write_options : Option WriteOptions} {s : Spec}
    (h : Spec.init latest rng n_rows suffix dt_format columns write_options = .ok s) :
    is_extension s.suffix = true := by
  unfold Spec.init at h
  have hsuf : ∀ wo', Spec.validate n_rows suffix dt_format columns write_options = .ok wo' →
      is_extension suffix = true := by
    intro wo' hv
    unfold Spec.validate at hv
    split_ifs at hv with h1 h2 h3 h4 h5 h6
    simpa using h5
  rcases rng with r | ⟨ds, de⟩
  · simp only at h
    rcases hv : Spec.validate n_rows suffix dt_format columns write_options with msg | wo'
    · rw [hv] at h; exact absurd h (by simp)
    · rw [hv] at h
      injection h with h'
      rw [← h']
      exact hsuf wo' hv
  · simp only at h
    rcases hr : DateRange.init latest ds de with msg | r
    · rw [hr] at h; exact absurd h (by simp)
    · rw [hr] at h
      rcases hv : Spec.validate n_rows suffix dt_format columns write_options with msg | wo'
      · rw [hv] at h; exact absurd h (by simp)
      · rw [hv] at h
        injection h with h'
        rw [← h']
        exact hsuf wo' hv

/-- **C10**: for every `Spec` built by `Spec.__init__` (whose validation
guarantees the suffix is one of the four known extensions), the
unlink-and-raise fallback of `Spec.write` is unreachable: `write`
dispatches to exactly one of the four format writers. -/
theorem spec_write_fallback_unreachable
    (latest : Date) (rng : IntoRangeArg) (n_rows : Int) (suffix : String)
    (dt_format : Option String) (columns : List String)
    (write_options : Option WriteOptions) (s : Spec)
    (h : Spec.init latest rng n_rows suffix dt_format columns write_options = .ok s) :
    ∃ a : WriteAction, Spec.write s = .ok a := by
  have hs := init_ok_suffix h
  unfold is_extension EXTENSIONS at hs
  have hs' : s.suffix = ".arrow" ∨ s.suffix = ".csv" ∨ s.suffix = ".json"
      ∨ s.suffix = ".parquet" := by
    have hmem := List.mem_of_elem_eq_true hs
    simpa using hmem
  unfold Spec.write
  rcases hs' with h' | h' | h' | h' <;> simp [h']

/-- Witness for C10: a `.csv` spec built by `Spec.__init__` writes through
the csv writer. -/
theorem spec_write_fallback_unreachable_witness :
    ∃ a : WriteAction, Spec.write
      ⟨⟨⟨2001, 1, 1⟩, ⟨2001, 12, 31⟩⟩, 5000, ".csv", some "iso:strict", COLUMNS_DEFAULT,
        Spec.mergeWriteOptions ".csv" []⟩ = .ok a :=
  spec_write_fallback_unreachable ⟨2024, 12, 31⟩
    (.dates (.ymd 2001 1 1) (.ymd 2001 12 31)) 5000 ".csv" (some "iso:strict")
    COLUMNS_DEFAULT none _ (by decide)

/-! ### `SourceMap` grouping (flights.py lines 607-752) -/

/-- The lazy frame `add_spec` builds for a range:
`self.clean(pl.scan_parquet(paths))`.  `scan` models the ambient parquet
reader over the input directory. -/
def mkFrame (scan : List String → List RawRow) (input_dir : String) (r : DateRange) :
    Except String (List CleanRow) :=
  SourceMap.clean (scan (r.paths input_dir))

/-- The state of a `SourceMap`: the insertion-ordered `_mapping`
(defaultdict of deques) and `_frames` dicts, keyed by `DateRange` with its
`__eq__`/`__hash__`. -/
structure SourceMap where
  input_dir : String
  mapping : List (DateRange × List Spec)
  frames : List (DateRange × Except String (List CleanRow))

/-- `d_range in self._mapping` under `DateRange.__eq__`. -/
def containsKey (l : List (DateRange × List Spec)) (r : DateRange) : Bool :=
  l.any (fun e => DateRange.eq e.1 r)

/-- `self._mapping[d_range].append(spec)`: append to the bucket of the first
equal key, else insert a fresh bucket at the end (defaultdict). -/
def appendSpec : List (DateRange × List Spec) → DateRange → Spec → List (DateRange × List Spec)
  | [], r, s => [(r, [s])]
  | (k, v) :: t, r, s =>
    if DateRange.eq k r then (k, v ++ [s]) :: t
    else (k, v) :: appendSpec t r s

/-- `self._mapping[d_range]` read during iteration (empty for a missing
key, as the defaultdict would produce). -/
def lookupSpecs : List (DateRange × List Spec) → DateRange → List Spec
  | [], _ => []
  | (k, v) :: t, r => if DateRange.eq k r then v else lookupSpecs t r

/-- `SourceMap.add_spec`: scan-and-clean a new frame for an unseen
`DateRange`, then append the spec to its bucket. -/
def SourceMap.add_spec (scan : List String → List RawRow) (m : SourceMap) (s : Spec) :
    SourceMap :=
  if containsKey m.mapping s.range then
    { m with mapping := appendSpec m.mapping s.range s }
  else
    { m with
        mapping := appendSpec m.mapping s.range s
        frames := m.frames ++ [(s.range, mkFrame scan m.input_dir s.range)] }

/-- `SourceMap.from_specs`: fold `add_spec` over the specs, starting empty. -/
def SourceMap.from_specs (scan : List String → List RawRow) (specs : List Spec)
    (input_dir : String) : SourceMap :=
  specs.foldl (SourceMap.add_spec scan) ⟨input_dir, [], []⟩

/-- `SourceMap.iter_tasks`: raises if nothing was added, else yields each
spec of each frame's bucket, paired with that frame. -/
def SourceMap.iter_tasks (m : SourceMap) :
    Except String (List (Spec × Except String (List CleanRow))) :=
  if m.frames.length = 0 then
    .error "Dependent specs have not yet been added."
  else
    .ok (m.frames.flatMap (fun e => (lookupSpecs m.mapping e.1).map (fun s => (s, e.2))))

theorem dateRange_eq_refl (r : DateRange) : DateRange.eq r r = true := by
  simp [DateRange.eq]

theorem dateRange_eq_symm {a b : DateRange} (h : DateRange.eq a b = true) :
    DateRange.eq b a = true := by
  simp only [DateRange.eq, decide_eq_true_eq] at h ⊢
  exact h.symm

theorem dateRange_eq_paths {a b : DateRange} (h : DateRange.eq a b = true)
    (dir : String) : DateRange.paths a dir = DateRange.paths b dir := by
  simp only [DateRange.eq, decide_eq_true_eq] at h
  simp [DateRange.paths, h]

theorem containsKey_false_iff (l : List (DateRange × List Spec)) (r : DateRange) :
    containsKey l r = false ↔ ∀ e ∈ l, DateRange.eq e.1 r = false := by
  simp [containsKey, List.any_eq_false]

theorem appendSpec_of_not_contains {l : List (DateRange × List Spec)} {r : DateRange}
    (s : Spec) (h : containsKey l r = false) : appendSpec l r s = l ++ [(r, [s])] := by
  induction l with
  | nil => rfl
  | cons hd t ih =>
    have hhd : DateRange.eq hd.1 r = false :=
      (containsKey_false_iff _ r).mp h hd (by simp)
    have ht : containsKey t r = false := by
      rw [containsKey_false_iff]
      intro e he
      exact (containsKey_false_iff _ r).mp h e (by simp [he])
    obtain ⟨k, v⟩ := hd
    simp only [appendSpec, hhd]
    simp [ih ht]

theorem containsKey_cons (k : DateRange) (v : List Spec)
    (t : List (DateRange × List Spec)) (r : DateRange) :
    containsKey ((k, v) :: t) r = (DateRange.eq k r || containsKey t r) := by
  simp [containsKey]

theorem appendSpec_map_fst_of_contains {l : List (DateRange × List Spec)} {r : DateRange}
    (s : Spec) (h : containsKey l r = true) :
    (appendSpec l r s).map Prod.fst = l.map Prod.fst := by
  induction l with
  | nil => simp [containsKey] at h
  | cons hd t ih =>
    obtain ⟨k, v⟩ := hd
    rw [containsKey_cons] at h
    by_cases hk : DateRange.eq k r = true
    · simp [appendSpec, hk]
    · have hk' : DateRange.eq k r = false := by simpa using hk
      have ht : containsKey t r = true := by simpa [hk'] using h
      simp [appendSpec, hk', ih ht]

theorem appendSpec_buckets {l : List (DateRange × List Spec)} {r : DateRange} (s : Spec)
    (hb : ∀ e ∈ l, ∀ x ∈ e.2, DateRange.eq x.range e.1 = true) (hr : r = s.range) :
    ∀ e ∈ appendSpec l r s, ∀ x ∈ e.2, DateRange.eq x.range e.1 = true := by
  induction l with
  | nil =>
    intro e he x hx
    simp only [appendSpec, List.mem_singleton] at he
    subst he
    simp only [List.mem_singleton] at hx
    subst hx
    rw [hr]
    exact dateRange_eq_refl _
  | cons hd t ih =>
    obtain ⟨k, v⟩ := hd
    intro e he x hx
    by_cases hk : DateRange.eq k r = true
    · rw [show appendSpec ((k, v) :: t) r s = (k, v ++ [s]) :: t by simp [appendSpec, hk]] at he
      rcases List.mem_cons.mp he with rfl | he
      · rcases List.mem_append.mp hx with hx | hx
        · exact hb (k, v) (by simp) x hx
        · rw [List.mem_singleton.mp hx, ← hr]
          exact dateRange_eq_symm hk
      · exact hb e (by simp [he]) x hx
    · have hk' : DateRange.eq k r = false := by simpa using hk
      rw [show appendSpec ((k, v) :: t) r s = (k, v) :: appendSpec t r s by
        simp [appendSpec, hk']] at he
      rcases List.mem_cons.mp he with rfl | he
      · exact hb (k, v) (by simp) x hx
      · exact ih (fun e' he' x' hx' => hb e' (by simp [he']) x' hx') e he x hx

theorem appendSpec_flatMap_perm (l : List (DateRange × List Spec)) (r : DateRange) (s : Spec) :
    ((appendSpec l r s).flatMap Prod.snd).Perm (l.flatMap Prod.snd ++ [s]) := by
  induction l with
  | nil => simp [appendSpec]
  | cons hd t ih =>
    obtain ⟨k, v⟩ := hd
    by_cases hk : DateRange.eq k r = true
    · rw [show appendSpec ((k, v) :: t) r s = (k, v ++ [s]) :: t by simp [appendSpec, hk]]
      simp only [List.flatMap_cons]
      have he : (v ++ [s]) ++ t.flatMap Prod.snd = v ++ ([s] ++ t.flatMap Prod.snd) := by
        simp [List.append_assoc]
      rw [he]
      have hperm : ([s] ++ t.flatMap Prod.snd).Perm (t.flatMap Prod.snd ++ [s]) :=
        List.perm_append_comm
      have h2 := hperm.append_left v
      have he2 : v ++ (t.flatMap Prod.snd ++ [s]) = (v ++ t.flatMap Prod.snd) ++ [s] := by
        simp [List.append_assoc]
      rwa [he2] at h2
    · have hk' : DateRange.eq k r = false := by simpa using hk
      rw [show appendSpec ((k, v) :: t) r s = (k, v) :: appendSpec t r s by
        simp [appendSpec, hk']]
      simp only [List.flatMap_cons]
      have h2 := ih.append_left v
      have he2 : v ++ (t.flatMap Prod.snd ++ [s]) = (v ++ t.flatMap Prod.snd) ++ [s] := by
        simp [List.append_assoc]
      rwa [he2] at h2

theorem containsKey_appendSpec (l : List (DateRange × List Spec)) (r r' : DateRange) (s : Spec)
    (h : containsKey l r' = true) : containsKey (appendSpec l r s) r' = true := by
  induction l with
  | nil => simp [containsKey] at h
  | cons hd t ih =>
    obtain ⟨k, v⟩ := hd
    rw [containsKey_cons] at h
    by_cases hk : DateRange.eq k r = true
    · rw [show appendSpec ((k, v) :: t) r s = (k, v ++ [s]) :: t by simp [appendSpec, hk]]
      rw [containsKey_cons]
      exact h
    · have hk' : DateRange.eq k r = false := by simpa using hk
      rw [show appendSpec ((k, v) :: t) r s = (k, v) :: appendSpec t r s by
        simp [appendSpec, hk']]
      rw [containsKey_cons]
      by_cases hkr : DateRange.eq k r' = true
      · simp [hkr]
      · have hkr' : DateRange.eq k r' = false := by simpa using hkr
        have ht : containsKey t r' = true := by simpa [hkr'] using h
        simp [ih ht]

theorem containsKey_appendSpec_self (l : List (DateRange × List Spec)) (r : DateRange) (s : Spec) :
    containsKey (appendSpec l r s) r = true := by
  induction l with
  | nil => simp [appendSpec, containsKey, dateRange_eq_refl]
  | cons hd t ih =>
    obtain ⟨k, v⟩ := hd
    by_cases hk : DateRange.eq k r = true
    · rw [show appendSpec ((k, v) :: t) r s = (k, v ++ [s]) :: t by simp [appendSpec, hk]]
      rw [containsKey_cons, hk]
      rfl
    · have hk' : DateRange.eq k r = false := by simpa using hk
      rw [show appendSpec ((k, v) :: t) r s = (k, v) :: appendSpec t r s by
        simp [appendSpec, hk']]
      rw [containsKey_cons, ih]
      simp

/-- The `SourceMap` invariant maintained by `add_spec`: frames mirror the
mapping keys one-to-one (in order), keys are pairwise distinct under
`DateRange.__eq__`, every bucketed spec's range equals its key, every added
spec has a key, every key comes from an added spec, and the buckets hold
exactly the added specs. -/
def SourceMap.Inv (scan : List String → List RawRow) (dir : String)
    (added : List Spec) (m : SourceMap) : Prop :=
  m.input_dir = dir
  ∧ m.frames = m.mapping.map (fun e => (e.1, mkFrame scan dir e.1))
  ∧ List.Pairwise (fun a b => DateRange.eq a b = false) (m.mapping.map Prod.fst)
  ∧ (∀ e ∈ m.mapping, ∀ x ∈ e.2, DateRange.eq x.range e.1 = true)
  ∧ (∀ s ∈ added, containsKey m.mapping s.range = true)
  ∧ (∀ k ∈ m.mapping.map Prod.fst, ∃ x ∈ added, DateRange.eq k x.range = true)
  ∧ (m.mapping.flatMap Prod.snd).Perm added

theorem map_key_frame (g : DateRange → Except String (List CleanRow)) :
    ∀ l : List (DateRange × List Spec),
      l.map (fun e => (e.1, g e.1)) = (l.map Prod.fst).map (fun k => (k, g k)) := by
  intro l
  rw [List.map_map]
  rfl

theorem inv_add_spec {scan : List String → List RawRow} {dir : String} {added : List Spec}
    {m : SourceMap} (hInv : SourceMap.Inv scan dir added m) (s : Spec) :
    SourceMap.Inv scan dir (added ++ [s]) (SourceMap.add_spec scan m s) := by
  obtain ⟨hdir, hfr, hpw, hbk, hck, horig, hperm⟩ := hInv
  unfold SourceMap.add_spec
  by_cases hc : containsKey m.mapping s.range = true
  · rw [if_pos hc]
    have hkeys := appendSpec_map_fst_of_contains s hc
    refine ⟨hdir, ?_, ?_, appendSpec_buckets s hbk rfl, ?_, ?_, ?_⟩
    · show m.frames = (appendSpec m.mapping s.range s).map (fun e => (e.1, mkFrame scan dir e.1))
      rw [map_key_frame, hkeys, ← map_key_frame]
      exact hfr
    · show List.Pairwise _ ((appendSpec m.mapping s.range s).map Prod.fst)
      rw [hkeys]
      exact hpw
    · intro x hx
      rcases List.mem_append.mp hx with hx | hx
      · exact containsKey_appendSpec _ _ _ _ (hck x hx)
      · rw [List.mem_singleton.mp hx]
        exact containsKey_appendSpec_self _ _ _
    · intro k hk
      rw [hkeys] at hk
      obtain ⟨x, hx, he⟩ := horig k hk
      exact ⟨x, List.mem_append.mpr (Or.inl hx), he⟩
    · exact (appendSpec_flatMap_perm _ _ _).trans (hperm.append_right [s])
  · have hc' : containsKey m.mapping s.range = false := by simpa using hc
    rw [if_neg hc]
    rw [appendSpec_of_not_contains s hc']
    have hkeys : (m.mapping ++ [(s.range, [s])]).map Prod.fst
        = m.mapping.map Prod.fst ++ [s.range] := by simp
    refine ⟨hdir, ?_, ?_, ?_, ?_, ?_, ?_⟩
    · show m.frames ++ [(s.range, mkFrame scan m.input_dir s.range)]
        = (m.mapping ++ [(s.range, [s])]).map (fun e => (e.1, mkFrame scan dir e.1))
      rw [List.map_append, ← hfr, hdir]
      rfl
    · show List.Pairwise _ ((m.mapping ++ [(s.range, [s])]).map Prod.fst)
      rw [hkeys]
      rw [List.pairwise_append]
      refine ⟨hpw, by simp, ?_⟩
      intro a ha b hb
      rw [List.mem_singleton.mp hb]
      obtain ⟨e, he, rfl⟩ := List.mem_map.mp ha
      exact (containsKey_false_iff _ _).mp hc' e he
    · intro e he x hx
      rcases List.mem_append.mp he with he | he
      · exact hbk e he x hx
      · rw [List.mem_singleton.mp he] at hx ⊢
        rw [List.mem_singleton.mp hx]
        exact dateRange_eq_refl _
    · intro x hx
      rcases List.mem_append.mp hx with hx | hx
      · have h1 := hck x hx
        unfold containsKey at h1 ⊢
        rw [List.any_append, h1]
        rfl
      · rw [List.mem_singleton.mp hx]
        unfold containsKey
        rw [List.any_append]
        simp [dateRange_eq_refl]
    · intro k hk
      rw [hkeys] at hk
      rcases List.mem_append.mp hk with hk | hk
      · obtain ⟨x, hx, he⟩ := horig k hk
        exact ⟨x, List.mem_append.mpr (Or.inl hx), he⟩
      · rw [List.mem_singleton.mp hk]
        exact ⟨s, List.mem_append.mpr (Or.inr (by simp)), dateRange_eq_refl _⟩
    · rw [List.flatMap_append]
      simpa using hperm.append_right [s]

theorem inv_foldl {scan : List String → List RawRow} {dir : String} :
    ∀ (specs : List Spec) (m : SourceMap) (added : List Spec),
      SourceMap.Inv scan dir added m →
      SourceMap.Inv scan dir (added ++ specs) (specs.foldl (SourceMap.add_spec scan) m) := by
  intro specs
  induction specs with
  | nil => intro m added h; simpa using h
  | cons s t ih =>
    intro m added h
    have h2 := ih _ _ (inv_add_spec h s)
    rw [List.foldl_cons]
    have he : (added ++ [s]) ++ t = added ++ s :: t := by simp
    rwa [he] at h2

theorem inv_from_specs (scan : List String → List RawRow) (dir : String) (specs : List Spec) :
    SourceMap.Inv scan dir specs (SourceMap.from_specs scan specs dir) := by
  have h0 : SourceMap.Inv scan dir [] ⟨dir, [], []⟩ := by
    refine ⟨rfl, rfl, ?_, ?_, ?_, ?_, ?_⟩ <;> simp
  have h := inv_foldl specs ⟨dir, [], []⟩ [] h0
  simpa [SourceMap.from_specs] using h

theorem frames_flatMap_eq (g : DateRange → Except String (List CleanRow)) :
    ∀ M : List (DateRange × List Spec),
      List.Pairwise (fun a b => DateRange.eq a b = false) (M.map Prod.fst) →
      (M.map (fun e => (e.1, g e.1))).flatMap
          (fun e => (lookupSpecs M e.1).map (fun s => (s, e.2)))
        = M.flatMap (fun e => e.2.map (fun s => (s, g e.1))) := by
  intro M
  induction M with
  | nil => intro _; rfl
  | cons hd t ih =>
    intro hpw
    obtain ⟨k, v⟩ := hd
    obtain ⟨hhead, htail⟩ := List.pairwise_cons.mp hpw
    simp only [List.map_cons, List.flatMap_cons]
    have h1 : lookupSpecs ((k, v) :: t) k = v := by
      simp [lookupSpecs, dateRange_eq_refl]
    rw [h1]
    congr 1
    have h2 : ∀ e ∈ t.map (fun e => (e.1, g e.1)),
        (lookupSpecs ((k, v) :: t) e.1).map (fun s => (s, e.2))
          = (lookupSpecs t e.1).map (fun s => (s, e.2)) := by
      intro e he
      obtain ⟨e', he', rfl⟩ := List.mem_map.mp he
      have hke : DateRange.eq k e'.1 = false :=
        hhead e'.1 (List.mem_map.mpr ⟨e', he', rfl⟩)
      simp [lookupSpecs, hke]
    rw [List.flatMap_congr h2]
    exact ih htail

theorem pathOf_inj (dir : String) {s1 s2 : String}
    (h : dir ++ "/" ++ s1 ++ ".parquet" = dir ++ "/" ++ s2 ++ ".parquet") : s1 = s2 := by
  have hd : ((dir ++ "/").data ++ s1.data) ++ ".parquet".data
      = ((dir ++ "/").data ++ s2.data) ++ ".parquet".data := congrArg String.data h
  have h2 := List.append_cancel_left (List.append_cancel_right hd)
  cases s1; cases s2
  exact congrArg String.mk h2

theorem paths_eq_stems_eq {a b : DateRange} (dir : String)
    (h : DateRange.paths a dir = DateRange.paths b dir) : a.file_stems = b.file_stems := by
  unfold DateRange.paths at h
  have hinj : Function.Injective (fun stem => dir ++ "/" ++ stem ++ ".parquet") :=
    fun s1 s2 hs => pathOf_inj dir hs
  exact List.map_injective_iff.mpr hinj h

/-! ### Claim C1 -/

/-- **C1**: for every sequence of specs fed to a `SourceMap` via
`from_specs`/`add_spec`, exactly one lazy frame is created per distinct
`DateRange` (distinctness being file-stem equality): the frame keys are
pairwise distinct, every spec's range has a frame, every frame comes from
some spec, each frame is the clean of a scan of its own paths, no two
frames scan the same path list, and `iter_tasks` yields every added spec
exactly once (a permutation) paired with the frame of its own range. -/
theorem sourceMap_one_frame_per_range_and_iter_tasks
    (scan : List String → List RawRow) (dir : String) (specs : List Spec)
    (hne : specs ≠ []) :
    List.Pairwise (fun a b => DateRange.eq a b = false)
      ((SourceMap.from_specs scan specs dir).frames.map Prod.fst)
    ∧ (∀ s ∈ specs, ∃ e ∈ (SourceMap.from_specs scan specs dir).frames,
        DateRange.eq e.1 s.range = true)
    ∧ (∀ e ∈ (SourceMap.from_specs scan specs dir).frames,
        ∃ s ∈ specs, DateRange.eq e.1 s.range = true)
    ∧ (∀ e ∈ (SourceMap.from_specs scan specs dir).frames,
        e.2 = SourceMap.clean (scan (DateRange.paths e.1 dir)))
    ∧ List.Pairwise (fun p q => p ≠ q)
      ((SourceMap.from_specs scan specs dir).frames.map (fun e => DateRange.paths e.1 dir))
    ∧ ∃ tasks, (SourceMap.from_specs scan specs dir).iter_tasks = .ok tasks
        ∧ (tasks.map Prod.fst).Perm specs
        ∧ ∀ p ∈ tasks, p.2 = SourceMap.clean (scan (DateRange.paths p.1.range dir)) := by
  obtain ⟨hdir, hfr, hpw, hbk, hck, horig, hperm⟩ := inv_from_specs scan dir specs
  have hkeys : (SourceMap.from_specs scan specs dir).frames.map Prod.fst
      = (SourceMap.from_specs scan specs dir).mapping.map Prod.fst := by
    rw [hfr, List.map_map]
    rfl
  have hpwf : List.Pairwise (fun a b => DateRange.eq a b = false)
      ((SourceMap.from_specs scan specs dir).frames.map Prod.fst) := by
    rw [hkeys]; exact hpw
  refine ⟨hpwf, ?_, ?_, ?_, ?_, ?_⟩
  · intro s hs
    have h1 := hck s hs
    obtain ⟨e, he, heq⟩ : ∃ e ∈ (SourceMap.from_specs scan specs dir).mapping,
        DateRange.eq e.1 s.range = true := by
      simpa [containsKey, List.any_eq_true] using h1
    exact ⟨(e.1, mkFrame scan dir e.1), by rw [hfr]; exact List.mem_map.mpr ⟨e, he, rfl⟩, heq⟩
  · intro e he
    rw [hfr] at he
    obtain ⟨e', he', rfl⟩ := List.mem_map.mp he
    exact horig e'.1 (List.mem_map.mpr ⟨e', he', rfl⟩)
  · intro e he
    rw [hfr] at he
    obtain ⟨e', he', rfl⟩ := List.mem_map.mp he
    rfl
  · have himp : ∀ a b : DateRange, DateRange.eq a b = false →
        DateRange.paths a dir ≠ DateRange.paths b dir := by
      intro a b hab hcontra
      have hstems := paths_eq_stems_eq dir hcontra
      rw [show DateRange.eq a b = true by simp [DateRange.eq, hstems]] at hab
      exact absurd hab (by simp)
    have h1 : (SourceMap.from_specs scan specs dir).frames.map (fun e => DateRange.paths e.1 dir)
        = ((SourceMap.from_specs scan specs dir).frames.map Prod.fst).map
            (fun k => DateRange.paths k dir) := by
      rw [List.map_map]
      rfl
    rw [h1]
    exact List.Pairwise.map _ (fun {a b} hab => himp a b hab) hpwf
  · have hmapne : (SourceMap.from_specs scan specs dir).mapping ≠ [] := by
      obtain ⟨s, hs⟩ := List.exists_mem_of_ne_nil specs hne
      have h1 := hck s hs
      intro hcon
      rw [hcon] at h1
      simp [containsKey] at h1
    have hfrne : (SourceMap.from_specs scan specs dir).frames.length ≠ 0 := by
      rw [hfr, List.length_map]
      intro h0
      exact hmapne (List.length_eq_zero.mp h0)
    refine ⟨(SourceMap.from_specs scan specs dir).mapping.flatMap
        (fun e => e.2.map (fun s => (s, mkFrame scan dir e.1))), ?_, ?_, ?_⟩
    · unfold SourceMap.iter_tasks
      rw [if_neg hfrne]
      congr 1
      rw [hfr]
      exact frames_flatMap_eq (mkFrame scan dir) _ hpw
    · have h1 : ((SourceMap.from_specs scan specs dir).mapping.flatMap
          (fun e => e.2.map (fun s => (s, mkFrame scan dir e.1)))).map Prod.fst
          = (SourceMap.from_specs scan specs dir).mapping.flatMap Prod.snd := by
        rw [List.map_flatMap]
        refine List.flatMap_congr (fun e _ => ?_)
        have hc : (Prod.fst ∘ fun s : Spec => (s, mkFrame scan dir e.1)) = id := rfl
        rw [List.map_map, hc, List.map_id]
      rw [h1]
      exact hperm
    · intro p hp
      obtain ⟨e, he, hpe⟩ := List.mem_flatMap.mp hp
      obtain ⟨s, hs, rfl⟩ := List.mem_map.mp hpe
      have heq := hbk e he s hs
      show mkFrame scan dir e.1 = SourceMap.clean (scan (DateRange.paths s.range dir))
      unfold mkFrame
      rw [dateRange_eq_paths (dateRange_eq_symm heq) dir]

/-- Example specs for the C1 witness: two ranges covering the same months
with different days (shared frame) and one for a different period. -/
def exampleSpecA : Spec := ⟨⟨⟨2001, 1, 1⟩, ⟨2001, 3, 31⟩⟩, 5000, ".csv", none, COLUMNS_DEFAULT, []⟩

/-- Same months as `exampleSpecA`, different days and row count. -/
def exampleSpecB : Spec :=
  ⟨⟨⟨2001, 1, 5⟩, ⟨2001, 3, 20⟩⟩, 10000, ".parquet", none, COLUMNS_DEFAULT, []⟩

/-- A different period entirely. -/
def exampleSpecC : Spec := ⟨⟨⟨2002, 1, 1⟩, ⟨2002, 2, 28⟩⟩, 100, ".json", none, COLUMNS_DEFAULT, []⟩

/-- Witness for C1: on three concrete specs (two sharing a month set) the
theorem instantiates; its `iter_tasks` component is spelled out. -/
theorem sourceMap_one_frame_per_range_and_iter_tasks_witness :
    ∃ tasks, (SourceMap.from_specs (fun _ => [])
        [exampleSpecA, exampleSpecB, exampleSpecC] "input").iter_tasks = .ok tasks
      ∧ (tasks.map Prod.fst).Perm [exampleSpecA, exampleSpecB, exampleSpecC]
      ∧ ∀ p ∈ tasks, p.2 = SourceMap.clean ((fun _ => ([] : List RawRow))
          (DateRange.paths p.1.range "input")) :=
  (sourceMap_one_frame_per_range_and_iter_tasks (fun _ => []) "input"
    [exampleSpecA, exampleSpecB, exampleSpecC] (by simp)).2.2.2.2.2

/-! ### Downloads and `Flights.run` (flights.py lines 755-930) -/

/-- Observable events of a `Flights.run`, in program order. -/
inductive Event where
  | requested (name : String)
  | wroteSource (content : String)
  | scanned (paths : List String)
  | transformed (s : Spec)
  | wroteSpec (s : Spec)
deriving DecidableEq

/-- The pipeline stage an event belongs to: download, scan, or
transform-and-write. -/
def Event.phase : Event → Nat
  | .requested _ => 0
  | .wroteSource _ => 0
  | .scanned _ => 1
  | .transformed _ => 2
  | .wroteSpec _ => 2

/-- `_without_suffixes`: strips all trailing suffixes of a file name; for a
non-hidden name this is everything before the first dot
(`Path.suffixes` of a leading-dot name is empty, leaving it unchanged). -/
def withoutSuffixes (s : String) : String :=
  match s.data with
  | '.' :: _ => s
  | _ => ⟨s.data.takeWhile (fun c => c != '.')⟩

/-- Result of one `_request_async` call: the logger lines it emitted and
either the downloaded buffer or the raised `NotImplementedError`. -/
structure ReqOut where
  log : List String
  buffer : Except String String
deriving DecidableEq

/-- `_request_async`: logs the attempt, then on an ok non-empty response
logs success and returns the buffer; otherwise **raises** (the failure
message travels in the exception, not the log). -/
def requestAsync (resp : String → Bool × String) (name : String) : ReqOut :=
  if (resp (withoutSuffixes name ++ ".zip")).1 = true
      ∧ (resp (withoutSuffixes name ++ ".zip")).2 ≠ "" then
    { log := ["Requesting " ++ (withoutSuffixes name ++ ".zip") ++ " ...",
              "Successful " ++ (withoutSuffixes name ++ ".zip")]
      buffer := .ok (resp (withoutSuffixes name ++ ".zip")).2 }
  else
    { log := ["Requesting " ++ (withoutSuffixes name ++ ".zip") ++ " ..."]
      buffer := .error ("Failed for " ++ (withoutSuffixes name ++ ".zip")) }

/-- `asyncio.gather` fan-in: all coroutines run; if any raised, the
exception propagates (this linearization takes the first in list order —
the source makes no ordering promise). -/
def gatherExcept : List (Except String String) → Except String (List String)
  | [] => .ok []
  | .error e :: _ => .error e
  | .ok b :: rest =>
    match gatherExcept rest with
    | .error e => .error e
    | .ok bs => .ok (b :: bs)

/-- `Flights.download_sources` together with `_download_sources_async`:
request every missing stem (each exactly once, no retry); only when all
succeed are the zip-to-parquet writes started. -/
def downloadSources (resp : String → Bool × String) (missing : List String) :
    List String × List Event × Except String Unit :=
  if missing.isEmpty then
    (["Detecting required sources ...", "Sources already downloaded."], [], .ok ())
  else
    match gatherExcept (missing.map (fun n => (requestAsync resp n).buffer)) with
    | .error e =>
      ("Detecting required sources ..."
         :: missing.flatMap (fun n => (requestAsync resp n).log),
       missing.map Event.requested, .error e)
    | .ok bufs =>
      (("Detecting required sources ..."
         :: missing.flatMap (fun n => (requestAsync resp n).log))
         ++ ["Successfully downloaded all missing sources."],
       missing.map Event.requested ++ bufs.map Event.wroteSource, .ok ())

/-- `Flights._required_stems`: the set of stems over all specs' monthly
ranges (Python set: membership is what matters; `dedup` fixes an order). -/
def requiredStems (specs : List Spec) : List String :=
  (specs.flatMap (fun s => s.range.file_stems)).dedup

/-- `Flights.missing_stems`: required minus existing. -/
def missingStems (specs : List Spec) (existing : List String) : List String :=
  (requiredStems specs).filter (fun st => ! existing.contains st)

/-- `Flights.run`: download, then scan via `SourceMap.from_specs`, then for
each task a transform immediately followed by its write.  An exception at
any stage propagates and nothing later runs.  The transform/write bodies
are modelled as events only — this model captures their sequencing, which
is what C5 and C7 are about. -/
def Flights.run (resp : String → Bool × String) (scan : List String → List RawRow)
    (specs : List Spec) (existing : List String) (input_dir : String) :
    List String × List Event × Except String Unit :=
  match (downloadSources resp (missingStems specs existing)).2.2 with
  | .error e =>
    ("Starting job ..." :: (downloadSources resp (missingStems specs existing)).1,
     (downloadSources resp (missingStems specs existing)).2.1, .error e)
  | .ok _ =>
    match (SourceMap.from_specs scan specs input_dir).iter_tasks with
    | .error e =>
      ("Starting job ..." :: (downloadSources resp (missingStems specs existing)).1,
       (downloadSources resp (missingStems specs existing)).2.1
         ++ (SourceMap.from_specs scan specs input_dir).frames.map
             (fun e => Event.scanned (e.1.paths input_dir)), .error e)
    | .ok tasks =>
      (("Starting job ..." :: (downloadSources resp (missingStems specs existing)).1)
         ++ ["Finished job."],
       (downloadSources resp (missingStems specs existing)).2.1
         ++ (SourceMap.from_specs scan specs input_dir).frames.map
             (fun e => Event.scanned (e.1.paths input_dir))
         ++ tasks.flatMap (fun p => [Event.transformed p.1, Event.wroteSpec p.1]),
       .ok ())

theorem gatherExcept_raises : ∀ (l : List (Except String String)) (msg : String),
    Except.error msg ∈ l → raises (gatherExcept l) = true := by
  intro l
  induction l with
  | nil => intro msg h; simp at h
  | cons x rest ih =>
    intro msg hmem
    cases x with
    | error e => rfl
    | ok b =>
      have hmem' : Except.error msg ∈ rest := by
        rcases List.mem_cons.mp hmem with h | h
        · exact absurd h (by simp)
        · exact h
      have hr := ih msg hmem'
      cases hre : gatherExcept rest with
      | error e => simp [gatherExcept, hre, raises]
      | ok bs => rw [hre] at hr; simp [raises] at hr

/-- A single monthly source request fails: non-ok response or empty
content, making `_request_async` raise. -/
def requestFails (resp : String → Bool × String) (n : String) : Prop :=
  raises (requestAsync resp n).buffer = true

theorem requestAsync_log_heads (resp : String → Bool × String) (n : String) :
    ∀ msg ∈ (requestAsync resp n).log, msg.data.head? ≠ some 'F' := by
  unfold requestAsync
  split_ifs with h
  · intro msg hmsg
    simp only [List.mem_cons, List.mem_singleton] at hmsg
    rcases hmsg with rfl | rfl | hmsg
    · intro hc
      rw [show ("Requesting " ++ (withoutSuffixes n ++ ".zip") ++ " ...").data.head?
        = some 'R' from rfl] at hc
      exact absurd hc (by decide)
    · intro hc
      rw [show ("Successful " ++ (withoutSuffixes n ++ ".zip")).data.head?
        = some 'S' from rfl] at hc
      exact absurd hc (by decide)
    · simp at hmsg
  · intro msg hmsg
    simp only [List.mem_singleton] at hmsg
    subst hmsg
    intro hc
    rw [show ("Requesting " ++ (withoutSuffixes n ++ ".zip") ++ " ...").data.head?
      = some 'R' from rfl] at hc
    exact absurd hc (by decide)

theorem downloadSources_fail (resp : String → Bool × String) (missing : List String)
    (n : String) (hmem : n ∈ missing) (hf : requestFails resp n) :
    raises (downloadSources resp missing).2.2 = true
    ∧ (downloadSources resp missing).2.1 = missing.map Event.requested
    ∧ (downloadSources resp missing).1
        = "Detecting required sources ..."
          :: missing.flatMap (fun n => (requestAsync resp n).log) := by
  have hne : missing.isEmpty = false := by
    cases missing with
    | nil => simp at hmem
    | cons a t => rfl
  obtain ⟨msg, hmsg⟩ : ∃ msg, (requestAsync resp n).buffer = .error msg := by
    unfold requestFails at hf
    cases hb : (requestAsync resp n).buffer with
    | error e => exact ⟨e, rfl⟩
    | ok b => rw [hb] at hf; simp [raises] at hf
  have hErrMem : Except.error msg ∈ missing.map (fun n => (requestAsync resp n).buffer) :=
    List.mem_map.mpr ⟨n, hmem, by rw [hmsg]⟩
  have hg := gatherExcept_raises _ msg hErrMem
  unfold downloadSources
  rw [hne]
  cases hgr : gatherExcept (missing.map (fun n => (requestAsync resp n).buffer)) with
  | error e => simp [hgr, raises]
  | ok bs => rw [hgr] at hg; simp [raises] at hg

/-! ### Claim C5 -/

/-- **C5** (counterexample to the claim as stated): with an environment
that fails every request, `_request_async` raises a `NotImplementedError`
carrying the failure message, but the failure is **not logged** — the log
holds only the "Requesting" attempt; the run aborts with only download
events, writing no spec. -/
theorem download_failure_raises_but_is_not_logged :
    (requestAsync (fun _ => (false, "")) "STEM").buffer = .error "Failed for STEM.zip"
    ∧ (requestAsync (fun _ => (false, "")) "STEM").log = ["Requesting STEM.zip ..."]
    ∧ "Failed for STEM.zip" ∉ (requestAsync (fun _ => (false, "")) "STEM").log
    ∧ raises (Flights.run (fun _ => (false, "")) (fun _ => []) [exampleSpecC] [] "in").2.2
        = true
    ∧ ((Flights.run (fun _ => (false, "")) (fun _ => []) [exampleSpecC] [] "in").2.1.all
        (fun e => decide (e.phase = 0))) = true := by
  exact ⟨by decide, by decide, by decide, by decide, by decide⟩

/-- **C5** (amended): if any single monthly source request fails (non-ok
response or empty content), the exception propagates out of
`download_sources` uncaught and aborts the whole run; every missing stem is
requested exactly once (no retry), no zip-to-parquet write and no spec
output happens afterwards, and the failure itself is never logged (no log
line starts with the failure marker — the message only travels in the
exception). -/
theorem download_failure_aborts_run
    (resp : String → Bool × String) (scan : List String → List RawRow)
    (specs : List Spec) (existing : List String) (dir : String)
    (hfail : ∃ n ∈ missingStems specs existing, requestFails resp n) :
    raises (Flights.run resp scan specs existing dir).2.2 = true
    ∧ (Flights.run resp scan specs existing dir).2.1
        = (missingStems specs existing).map Event.requested
    ∧ (missingStems specs existing).Nodup
    ∧ (∀ msg ∈ (Flights.run resp scan specs existing dir).1,
        msg.data.head? ≠ some 'F') := by
  obtain ⟨n, hmem, hf⟩ := hfail
  obtain ⟨h1, h2, h3⟩ := downloadSources_fail resp _ n hmem hf
  obtain ⟨e, he⟩ : ∃ e, (downloadSources resp (missingStems specs existing)).2.2
      = .error e := by
    cases hb : (downloadSources resp (missingStems specs existing)).2.2 with
    | error e => exact ⟨e, rfl⟩
    | ok u => rw [hb] at h1; simp [raises] at h1
  have hrun : Flights.run resp scan specs existing dir
      = ("Starting job ..." :: (downloadSources resp (missingStems specs existing)).1,
         (downloadSources resp (missingStems specs existing)).2.1, .error e) := by
    unfold Flights.run
    rw [he]
  refine ⟨by rw [hrun]; rfl, by rw [hrun]; exact h2, ?_, ?_⟩
  · exact (List.nodup_dedup _).filter _
  · intro msg hmsg
    rw [hrun] at hmsg
    simp only [List.mem_cons] at hmsg
    rcases hmsg with rfl | hmsg
    · intro hc
      rw [show ("Starting job ..." : String).data.head? = some 'S' from rfl] at hc
      exact absurd hc (by decide)
    · rw [h3] at hmsg
      simp only [List.mem_cons] at hmsg
      rcases hmsg with rfl | hmsg
      · intro hc
        rw [show ("Detecting required sources ..." : String).data.head?
          = some 'D' from rfl] at hc
        exact absurd hc (by decide)
      · obtain ⟨n', _, hmo⟩ := List.mem_flatMap.mp hmsg
        exact requestAsync_log_heads resp n' msg hmo

set_option maxRecDepth 8192 in
/-- Witness for C5 (amended): the all-failing environment on one concrete
spec. -/
theorem download_failure_aborts_run_witness :
    raises (Flights.run (fun _ => (false, "")) (fun _ => []) [exampleSpecA] [] "in").2.2
      = true
    ∧ (Flights.run (fun _ => (false, "")) (fun _ => []) [exampleSpecA] [] "in").2.1
        = (missingStems [exampleSpecA] []).map Event.requested := by
  have h := download_failure_aborts_run (fun _ => (false, "")) (fun _ => [])
    [exampleSpecA] [] "in"
    ⟨fileStemSource 2001 1, by decide,
      show raises (requestAsync (fun _ => (false, "")) (fileStemSource 2001 1)).buffer
        = true by decide⟩
  exact ⟨h.1, h.2.1⟩

/-! ### Claim C7 -/

theorem pairwise_phase_const (p : Nat) :
    ∀ l : List Event, (∀ e ∈ l, Event.phase e = p) →
      List.Pairwise (fun a b => Event.phase a ≤ Event.phase b) l := by
  intro l
  induction l with
  | nil => intro _; exact List.Pairwise.nil
  | cons a t ih =>
    intro h
    refine List.pairwise_cons.mpr ⟨?_, ih (fun e he => h e (List.mem_cons_of_mem a he))⟩
    intro b hb
    rw [h a (List.mem_cons_self a t), h b (List.mem_cons_of_mem a hb)]

theorem dl_events_phase (resp : String → Bool × String) (missing : List String) :
    ∀ e ∈ (downloadSources resp missing).2.1, Event.phase e = 0 := by
  unfold downloadSources
  split_ifs with h
  · simp
  · cases hg : gatherExcept (missing.map (fun n => (requestAsync resp n).buffer)) with
    | error e0 =>
      intro e he
      simp only at he
      obtain ⟨n, _, rfl⟩ := List.mem_map.mp he
      rfl
    | ok bufs =>
      intro e he
      simp only at he
      rcases List.mem_append.mp he with he | he
      · obtain ⟨n, _, rfl⟩ := List.mem_map.mp he; rfl
      · obtain ⟨b, _, rfl⟩ := List.mem_map.mp he; rfl

theorem flat_pairs_write_follows (tasks : List (Spec × Except String (List CleanRow))) :
    ∀ j s, (tasks.flatMap (fun p => [Event.transformed p.1, Event.wroteSpec p.1]))[j]?
        = some (Event.wroteSpec s) →
      1 ≤ j ∧ (tasks.flatMap (fun p => [Event.transformed p.1, Event.wroteSpec p.1]))[j - 1]?
        = some (Event.transformed s) := by
  induction tasks with
  | nil => intro j s h; simp at h
  | cons p rest ih =>
    intro j s h
    rw [List.flatMap_cons] at h
    match j with
    | 0 => simp at h
    | 1 =>
      have hps : p.1 = s := by simpa using h
      refine ⟨le_refl 1, ?_⟩
      rw [List.flatMap_cons]
      simp [hps]
    | (k + 2) =>
      have h' : (rest.flatMap (fun p => [Event.transformed p.1, Event.wroteSpec p.1]))[k]?
          = some (Event.wroteSpec s) := by
        simpa using h
      obtain ⟨hk1, hk2⟩ := ih k s h'
      obtain ⟨k', rfl⟩ : ∃ k', k = k' + 1 := ⟨k - 1, by omega⟩
      refine ⟨by omega, ?_⟩
      rw [List.flatMap_cons]
      have hidx : k' + 1 + 2 - 1 = k' + 2 := by omega
      rw [hidx]
      have hk2' : (rest.flatMap (fun p => [Event.transformed p.1, Event.wroteSpec p.1]))[k']?
          = some (Event.transformed s) := by
        simpa using hk2
      simpa using hk2'

theorem grouped_ordering (A B : List Event) (tasks : List (Spec × Except String (List CleanRow)))
    (hA : ∀ e ∈ A, Event.phase e = 0) (hB : ∀ e ∈ B, Event.phase e = 1) :
    List.Pairwise (fun a b => Event.phase a ≤ Event.phase b)
      (A ++ B ++ tasks.flatMap (fun p => [Event.transformed p.1, Event.wroteSpec p.1]))
    ∧ ∀ i s,
        (A ++ B ++ tasks.flatMap (fun p => [Event.transformed p.1, Event.wroteSpec p.1]))[i]?
            = some (Event.wroteSpec s) →
        1 ≤ i
        ∧ (A ++ B ++ tasks.flatMap (fun p => [Event.transformed p.1, Event.wroteSpec p.1]))[i - 1]?
            = some (Event.transformed s) := by
  have hT : ∀ e ∈ tasks.flatMap (fun p => [Event.transformed p.1, Event.wroteSpec p.1]),
      Event.phase e = 2 := by
    intro e he
    obtain ⟨p, _, hp⟩ := List.mem_flatMap.mp he
    rcases List.mem_cons.mp hp with rfl | hp
    · rfl
    · rw [List.mem_singleton.mp hp]; rfl
  constructor
  · rw [List.pairwise_append]
    refine ⟨?_, pairwise_phase_const 2 _ hT, ?_⟩
    · rw [List.pairwise_append]
      refine ⟨pairwise_phase_const 0 A hA, pairwise_phase_const 1 B hB, ?_⟩
      intro a ha b hb
      rw [hA a ha, hB b hb]
      omega
    · intro a ha b hb
      rw [hT b hb]
      rcases List.mem_append.mp ha with ha | ha
      · rw [hA a ha]; omega
      · rw [hB a ha]; omega
  · intro i s h
    by_cases hi : i < (A ++ B).length
    · rw [List.getElem?_append_left hi] at h
      have hmem := List.getElem?_mem h
      rcases List.mem_append.mp hmem with hm | hm
      · have := hA _ hm; simp [Event.phase] at this
      · have := hB _ hm; simp [Event.phase] at this
    · push_neg at hi
      rw [List.getElem?_append_right hi] at h
      obtain ⟨hj1, hj2⟩ := flat_pairs_write_follows tasks _ s h
      refine ⟨by omega, ?_⟩
      rw [List.getElem?_append_right (by omega : (A ++ B).length ≤ i - 1)]
      have hidx : i - 1 - (A ++ B).length = i - (A ++ B).length - 1 := by omega
      rw [hidx]
      exact hj2

/-- **C7**: `Flights.run` executes its stages in order: the event phases
(download = 0, scan = 1, transform/write = 2) are monotone along the trace
— no scanning before downloading completes, no transform before all sources
are scanned — and every write is immediately preceded by its own spec's
transform. -/
theorem run_pipeline_stage_order (resp : String → Bool × String)
    (scan : List String → List RawRow) (specs : List Spec)
    (existing : List String) (dir : String) :
    List.Pairwise (fun a b => Event.phase a ≤ Event.phase b)
      (Flights.run resp scan specs existing dir).2.1
    ∧ ∀ i s, (Flights.run resp scan specs existing dir).2.1[i]?
          = some (Event.wroteSpec s) →
        1 ≤ i ∧ (Flights.run resp scan specs existing dir).2.1[i - 1]?
          = some (Event.transformed s) := by
  have hA := dl_events_phase resp (missingStems specs existing)
  have hB : ∀ e ∈ (SourceMap.from_specs scan specs dir).frames.map
      (fun e => Event.scanned (e.1.paths dir)), Event.phase e = 1 := by
    intro e he
    obtain ⟨x, _, rfl⟩ := List.mem_map.mp he
    rfl
  unfold Flights.run
  cases hdl : (downloadSources resp (missingStems specs existing)).2.2 with
  | error e =>
    have h := grouped_ordering (downloadSources resp (missingStems specs existing)).2.1
      [] [] hA (by simp)
    simpa using h
  | ok u =>
    cases hit : (SourceMap.from_specs scan specs dir).iter_tasks with
    | error e =>
      have h := grouped_ordering (downloadSources resp (missingStems specs existing)).2.1
        ((SourceMap.from_specs scan specs dir).frames.map
          (fun e => Event.scanned (e.1.paths dir))) [] hA hB
      simpa using h
    | ok tasks =>
      exact grouped_ordering _ _ tasks hA hB

/-- Witness for C7: the ordering at one concrete, fully successful run. -/
theorem run_pipeline_stage_order_witness :
    List.Pairwise (fun a b => Event.phase a ≤ Event.phase b)
      (Flights.run (fun _ => (true, "zipbytes")) (fun _ => []) [exampleSpecA, exampleSpecB]
        [] "in").2.1 :=
  (run_pipeline_stage_order (fun _ => (true, "zipbytes")) (fun _ => [])
    [exampleSpecA, exampleSpecB] [] "in").1

/-! ### `detect_techniques` (generate_gallery_examples.py lines 1729-1881) -/

/-- JSON values, as parsed Vega/Vega-Lite specs. -/
inductive Json where
  | str (s : String)
  | num (n : Int)
  | bool (b : Bool)
  | null
  | arr (items : List Json)
  | obj (entries : List (String × Json))

/-- Escaping of one character inside a JSON string literal (quote and
backslash; `json.dumps`'s control/non-ASCII escapes are not needed by the
ASCII pattern table). -/
def escapeChar (c : Char) : List Char :=
  if c = '"' then ['\\', '"']
  else if c = '\\' then ['\\', '\\']
  else [c]

/-- Escape a JSON string body. -/
def escapeString (s : String) : String :=
  ⟨s.data.flatMap escapeChar⟩

mutual

/-- `json.dumps(obj, separators=(",", ":"))`: compact serialization. -/
def Json.dumps : Json → String
  | .str s => "\"" ++ escapeString s ++ "\""
  | .num n => intDecimal n
  | .bool true => "true"
  | .bool false => "false"
  | .null => "null"
  | .arr items => "[" ++ Json.dumpsList items ++ "]"
  | .obj entries => "\x7b" ++ Json.dumpsObj entries ++ "\x7d"

/-- Comma-joined array items. -/
def Json.dumpsList : List Json → String
  | [] => ""
  | [j] => Json.dumps j
  | j :: rest => Json.dumps j ++ "," ++ Json.dumpsList rest

/-- Comma-joined `"key":value` object entries. -/
def Json.dumpsObj : List (String × Json) → String
  | [] => ""
  | [(k, v)] => "\"" ++ escapeString k ++ "\":" ++ Json.dumps v
  | (k, v) :: rest =>
    "\"" ++ escapeString k ++ "\":" ++ Json.dumps v ++ "," ++ Json.dumpsObj rest

end

/-- `p in text` on Python strings: substring containment. -/
def containsSub (hay pat : String) : Bool :=
  hay.data.tails.any (fun t => pat.data.isPrefixOf t)

/-- `TECHNIQUE_PATTERNS`: each entry pairs the patterns to match with the
tag to assign. -/
def TECHNIQUE_PATTERNS : List (List String × String) := [
  (["\"window\":", "transform_window", "\"type\":\"window\""], "transform:window"),
  (["\"fold\":", "transform_fold", "\"type\":\"fold\""], "transform:fold"),
  (["\"pivot\":", "transform_pivot", "\"type\":\"pivot\""], "transform:pivot"),
  (["\"calculate\":", "transform_calculate", "\"type\":\"formula\""], "transform:calculate"),
  (["\"aggregate\":", "transform_aggregate", "\"type\":\"aggregate\""], "transform:aggregate"),
  (["\"filter\":", "transform_filter", "\"type\":\"filter\""], "transform:filter"),
  (["\"lookup\":", "transform_lookup", "\"type\":\"lookup\""], "transform:lookup"),
  (["\"density\":", "transform_density", "\"type\":\"kde\""], "transform:density"),
  (["\"regression\":", "transform_regression", "\"type\":\"regression\""], "transform:regression"),
  (["\"loess\":", "transform_loess", "\"type\":\"loess\""], "transform:loess"),
  (["\"flatten\":", "transform_flatten", "\"type\":\"flatten\""], "transform:flatten"),
  (["\"sample\":", "transform_sample", "\"type\":\"sample\""], "transform:sample"),
  (["\"quantile\":", "transform_quantile", "\"type\":\"quantile\""], "transform:quantile"),
  (["\"impute\":", "transform_impute", "\"type\":\"impute\""], "transform:impute"),
  (["\"joinaggregate\":", "transform_joinaggregate", "\"type\":\"joinaggregate\""],
    "transform:joinaggregate"),
  (["\"bin\":true", "\"bin\":\x7b", "transform_bin", "\"type\":\"bin\""], "transform:bin"),
  (["\"type\":\"extent\""], "transform:extent"),
  (["\"type\":\"crossfilter\"", "\"type\":\"resolvefilter\""], "transform:crossfilter"),
  (["\"select\":\"point\"", "\"select\":\"interval\"", "selection_point",
    "selection_interval"], "interaction:selection"),
  (["\"params\":[", "add_params(", "\"signals\":["], "interaction:param"),
  (["\"bind\":", "binding_select", "binding_range", "binding_radio", "binding_checkbox"],
    "interaction:binding"),
  (["\"condition\":\x7b\"param\"", "alt.when("], "interaction:conditional"),
  (["\"geoshape\"", "mark_geoshape"], "geo:shape"),
  (["\"projection\":", "projection=", "\"projections\":"], "geo:projection"),
  (["\"longitude\"", "\"latitude\"", "longitude:", "latitude:"], "geo:coordinates"),
  (["topojson", "topo_feature"], "geo:topojson"),
  (["\"facet\":", "\"row\":\x7b", "\"column\":\x7b", ".facet(", "row=", "column="],
    "composition:facet"),
  (["\"layer\":[", "alt.layer("], "composition:layer"),
  (["\"hconcat\":", "\"vconcat\":", "\"concat\":", "alt.hconcat(", "alt.vconcat("],
    "composition:concat"),
  (["\"repeat\":", ".repeat("], "composition:repeat"),
  (["\"boxplot\"", "mark_boxplot"], "mark:boxplot"),
  (["\"errorbar\"", "\"errorband\"", "mark_errorbar", "mark_errorband"], "mark:error"),
  (["\"trail\"", "mark_trail"], "mark:trail")]

/-- The input of `detect_techniques`: a parsed JSON spec (Vega/Vega-Lite)
or Altair Python source code. -/
inductive SpecOrCode where
  | spec (j : Json)
  | code (s : String)

/-- The searchable lowercase text the function matches against. -/
def toSearchText : SpecOrCode → String
  | .spec j => (Json.dumps j).toLower
  | .code s => s.toLower

/-- `detect_techniques`: collect the tag of every entry with a matching
pattern (a set in the source — here dedup), sorted; the gallery-name
argument is reserved and unused. -/
def detect_techniques (spec_or_code : SpecOrCode) (_gallery_name : String) : List String :=
  List.insertionSort (fun a b => a ≤ b)
    (((TECHNIQUE_PATTERNS.filter (fun pt =>
        pt.1.any (fun p => containsSub (toSearchText spec_or_code) p.toLower))).map
      Prod.snd).dedup)

/-! ### Claim C6 -/

/-- **C6**: `detect_techniques` tags by substring scans: a tag is in the
result iff one of its entry's patterns occurs (case-insensitively) in the
input text — the compact-JSON serialization for dict specs, the code string
for Altair — the result is sorted and duplicate-free, and the gallery-name
argument never affects the result. -/
theorem detect_techniques_matches_patterns (input : SpecOrCode) (g : String) :
    (∀ tag, tag ∈ detect_techniques input g ↔
      ∃ ps, (ps, tag) ∈ TECHNIQUE_PATTERNS
        ∧ ∃ p ∈ ps, containsSub (toSearchText input) p.toLower = true)
    ∧ (detect_techniques input g).Sorted (· ≤ ·)
    ∧ (detect_techniques input g).Nodup
    ∧ ∀ g', detect_techniques input g = detect_techniques input g' := by
  refine ⟨?_, ?_, ?_, fun g' => rfl⟩
  · intro tag
    unfold detect_techniques
    rw [(List.perm_insertionSort _ _).mem_iff, List.mem_dedup, List.mem_map]
    constructor
    · rintro ⟨pt, hpt, rfl⟩
      obtain ⟨hmem, hmatch⟩ := List.mem_filter.mp hpt
      refine ⟨pt.1, ?_, ?_⟩
      · obtain ⟨ps, t⟩ := pt
        exact hmem
      · simpa [List.any_eq_true] using hmatch
    · rintro ⟨ps, hps, p, hp, hc⟩
      refine ⟨(ps, tag), List.mem_filter.mpr ⟨hps, ?_⟩, rfl⟩
      simp only [List.any_eq_true]
      exact ⟨p, hp, hc⟩
  · exact List.sorted_insertionSort _ _
  · exact (List.perm_insertionSort _ _).nodup_iff.mpr (List.nodup_dedup _)
